import Mathlib

/-!
# IMAP client: synchronisation state and response accumulation

A shallow embedding of the synchronisation and protocol code of the IMAP client
(`src/utils.cpp`, `src/imaps.cpp`, `src/imap.cpp`, and the state-file part of
`src/main.cpp`).

Conventions of the embedding.

* A `std::string` is a `List Char`, one `Char` per byte.
* A C++ `int` is an `Int`; the 32-bit range is checked where the source's
  library calls check it (`stoi`, `operator>>`), and appears as a hypothesis
  where a value is printed and read back.
* A function that can leave through a C++ exception returns an `Option`,
  `none` standing for the exception.
* The file system is reduced to the one file the code reads and writes,
  `<outDir>/<server>/<mailbox>/state.txt`: `none` when it does not exist,
  `some content` otherwise.  The path arguments of the source only select that
  file and are not parameters of the model.
-/

namespace ImapClient

/-- A `std::string`: a sequence of bytes. -/
abbrev Str := List Char

/-! ## C and C++ library functions used by the source -/

/-- The C `isspace` in the "C" locale: space, `\t`, `\n`, `\v`, `\f`, `\r`. -/
def isspace (c : Char) : Bool :=
  c.toNat == 32 || (decide (9 ≤ c.toNat) && decide (c.toNat ≤ 13))

/-- The C `isdigit`: `0` to `9`. -/
def isdigit (c : Char) : Bool :=
  decide (48 ≤ c.toNat) && decide (c.toNat ≤ 57)

/-- The character class `[a-zA-Z0-9]` of the regular expressions of the source. -/
def isalnum (c : Char) : Bool :=
  (decide (97 ≤ c.toNat) && decide (c.toNat ≤ 122)) ||
  (decide (65 ≤ c.toNat) && decide (c.toNat ≤ 90)) ||
  (decide (48 ≤ c.toNat) && decide (c.toNat ≤ 57))

/-- The least value of a 32-bit `int`. -/
def INT_MIN : Int := -2147483648

/-- The greatest value of a 32-bit `int`. -/
def INT_MAX : Int := 2147483647

/-- A value that a C++ `int` can hold. -/
def inIntRange (v : Int) : Prop := INT_MIN ≤ v ∧ v ≤ INT_MAX

instance (v : Int) : Decidable (inIntRange v) := by
  unfold inIntRange; infer_instance

/-- The call `s.find(pat)`: the index of the first occurrence of `pat` in `s`,
`none` for `string::npos`. -/
def find (pat : Str) : Str → Option Nat
  | [] => if pat.isEmpty then some 0 else none
  | c :: cs =>
    if pat.isPrefixOf (c :: cs) then some 0 else (find pat cs).map (· + 1)

/-- The call `s.find(pat, pos)`: the first occurrence at index `pos` or later. -/
def findFrom (pat s : Str) (pos : Nat) : Option Nat :=
  if pos ≤ s.length then (find pat (s.drop pos)).map (· + pos) else none

/-- The call `s.substr(pos)`: throws `std::out_of_range` (here `none`) when `pos > s.size()`. -/
def substr (s : Str) (pos : Nat) : Option Str :=
  if pos ≤ s.length then some (s.drop pos) else none

/-- The call `std::getline(stream, line)` on the unread rest `s` of a stream: fails at
end of file; otherwise the line is everything up to the next `\n`, which is
consumed and not stored. -/
def getline (s : Str) : Option (Str × Str) :=
  match s with
  | [] => none
  | _ => some (s.takeWhile (· != '\n'), (s.dropWhile (· != '\n')).drop 1)

/-- The lines that `while (getline(stream, line))` visits; every successful
`getline` consumes at least one character, so `fuel = length` suffices. -/
def getlinesAux : Nat → Str → List Str
  | 0, _ => []
  | fuel + 1, s =>
    match getline s with
    | none => []
    | some (line, rest) => line :: getlinesAux fuel rest

/-- The lines of a whole file, in the order `getline` returns them. -/
def getlines (s : Str) : List Str := getlinesAux s.length s

/-- The maximal run of decimal digits at the head of `s`, read left to right
into the accumulator; returns the value and the unread rest. -/
def scanDigits : Str → Nat → Nat × Str
  | [], acc => (acc, [])
  | c :: cs, acc =>
    if isdigit c then scanDigits cs (acc * 10 + (c.toNat - 48)) else (acc, c :: cs)

/-- The optional sign in front of the digits of an integer: whether it is
negative, and the text after the sign. -/
def scanSign (s : Str) : Bool × Str :=
  match s with
  | '-' :: t => (true, t)
  | '+' :: t => (false, t)
  | _ => (false, s)

/-- The integer syntax shared by `strtol(.., 10)` and `num_get` (`operator>>`
into an `int`): leading white space, an optional sign, at least one digit.
Returns the mathematical value and the unread rest, `none` when there is no
digit to convert. -/
def scanInt (s : Str) : Option (Int × Str) :=
  let signed := scanSign (s.dropWhile isspace)
  match signed.2 with
  | [] => none
  | c :: _ =>
    if isdigit c then
      let r := scanDigits signed.2 0
      some (if signed.1 then - (r.1 : Int) else (r.1 : Int), r.2)
    else none

/-- The call `std::stoi(s)`: `std::invalid_argument` when no conversion is possible and
`std::out_of_range` when the value does not fit an `int`; both are `none`. -/
def stoi (s : Str) : Option Int :=
  match scanInt s with
  | none => none
  | some (v, _) => if inIntRange v then some v else none

/-- One `stream >> uid` with `int uid`: fails (`none`) when there is no
integer to read or when the value does not fit an `int`. -/
def extractInt (s : Str) : Option (Int × Str) :=
  match scanInt s with
  | none => none
  | some (v, rest) => if inIntRange v then some (v, rest) else none

/-- The values pushed by `while (stream >> uid) v.push_back(uid);`.  Every
successful extraction consumes at least one digit. -/
def readIntsAux : Nat → Str → List Int
  | 0, _ => []
  | fuel + 1, s =>
    match extractInt s with
    | none => []
    | some (v, rest) => v :: readIntsAux fuel rest

/-- The integers read from a whole `istringstream` over `s`. -/
def readInts (s : Str) : List Int := readIntsAux s.length s

/-- One `stream >> key` with `string key`: skips white space, then takes the
characters up to the next white space; fails at end of input. -/
def extractWord (s : Str) : Option (Str × Str) :=
  match s.dropWhile isspace with
  | [] => none
  | c :: cs => some ((c :: cs).takeWhile (fun x => !isspace x), (c :: cs).dropWhile (fun x => !isspace x))

/-- The output `stream << v` of an `int`: decimal digits, `-` in front of a negative value. -/
def printInt (v : Int) : Str :=
  if v < 0 then '-' :: Nat.toDigits 10 v.natAbs else Nat.toDigits 10 v.natAbs

/-- The output `stream << boolalpha << b`: the word `true` or `false`. -/
def boolalpha (b : Bool) : Str :=
  if b then "true".toList else "false".toList

/-! ## The state file (`src/utils.cpp`) -/

/-- The text `updateStateFile` writes to `state.txt` (lines 152 to 161), the
file being writable (otherwise the function only reports an error): the three
lines `HeadersOnly: `, `UIDVALIDITY: ` and `UIDs: `, every identifier followed
by one space.  The `ofstream` truncates the file, so this is its whole
content afterwards. -/
def updateStateFile (uidvalidity : Int) (uids : List Int) (headersOnly : Bool) : Str :=
  "HeadersOnly: ".toList ++ boolalpha headersOnly ++ ['\n'] ++
  ("UIDVALIDITY: ".toList ++ printInt uidvalidity ++ ['\n']) ++
  ("UIDs: ".toList ++ (uids.map (fun uid => printInt uid ++ [' '])).flatten ++ ['\n'])

/-- The test of lines 208 to 212 on one line: `some true` when the function
returns `serverUIDs` at once, `some false` when it goes on, `none` when
`substr` throws (the colon is the last character of the line).  A line that
contains `HeadersOnly:` contains a colon, so `find ":"` is never `none`. -/
def headersOnlyMismatch (line : Str) (headersOnly : Bool) : Option Bool :=
  if (find "HeadersOnly:".toList line).isSome then
    match find ":".toList line with
    | none => some false
    | some p =>
      match substr line (p + 2) with
      | none => none
      | some v =>
        some ((v == "true".toList && headersOnly == false) ||
              (v == "false".toList && headersOnly == true))
  else some false

/-- The `while (getline(stateFile, line))` loop of `checkValidity` followed by
the comparison of lines 225 to 237, over the lines still to read and the
current values of `storedUIDValidity` and `storedUIDs`.  `none` is an
exception of `substr` or `stoi`.  The branches `find ":" = none` cannot be
taken: the line contains `UIDVALIDITY:` or `UIDs:`, hence a colon. -/
def checkValidityLoop (currentUIDValidity : Int) (serverUIDs : List Int) (headersOnly : Bool) :
    List Str → Int → List Int → Option (List Int)
  | [], storedUIDValidity, storedUIDs =>
    if storedUIDValidity = currentUIDValidity then
      some (serverUIDs.filter (fun uid => !(storedUIDs.contains uid)))
    else some serverUIDs
  | line :: rest, storedUIDValidity, storedUIDs =>
    match headersOnlyMismatch line headersOnly with
    | none => none
    | some true => some serverUIDs
    | some false =>
      if (find "UIDVALIDITY:".toList line).isSome then
        match find ":".toList line with
        | none => none
        | some p =>
          match substr line (p + 1) with
          | none => none
          | some t =>
            match stoi t with
            | none => none
            | some v =>
              checkValidityLoop currentUIDValidity serverUIDs headersOnly rest v storedUIDs
      else if (find "UIDs:".toList line).isSome then
        match find ":".toList line with
        | none => none
        | some p =>
          match substr line (p + 1) with
          | none => none
          | some t =>
            checkValidityLoop currentUIDValidity serverUIDs headersOnly rest
              storedUIDValidity (storedUIDs ++ readInts t)
      else
        checkValidityLoop currentUIDValidity serverUIDs headersOnly rest
          storedUIDValidity storedUIDs

/-- The function `checkValidity` of `src/utils.cpp`.  `stateFile` is the content of
`state.txt` (`none`: the `ifstream` could not be opened).  `indeterminate` is
the value the uninitialised local `storedUIDValidity` happens to hold; it is
only read when the file has no `UIDVALIDITY:` line. -/
def checkValidity (stateFile : Option Str) (indeterminate : Int) (currentUIDValidity : Int)
    (serverUIDs : List Int) (headersOnly : Bool) : Option (List Int) :=
  match stateFile with
  | none => some serverUIDs
  | some content =>
    checkValidityLoop currentUIDValidity serverUIDs headersOnly (getlines content) indeterminate []

/-- The identifiers `createDir` reads from an existing state file (lines 77
to 89): the first line that contains `UIDs:` is read through an
`istringstream`, its first word is skipped (`iss >> key`) and the integers
after it are collected; later lines are not read (`break`). -/
def createDirStoredUIDs : List Str → List Int
  | [] => []
  | line :: rest =>
    if (find "UIDs:".toList line).isSome then
      match extractWord line with
      | none => []
      | some (_, afterKey) => readInts afterKey
    else createDirStoredUIDs rest

/-- The text `createDir` leaves in `state.txt` (lines 69 to 111), the directory
and the file being creatable.  `allUIDs` is the `unordered_set` built from
`messageUIDs` and then from the identifiers of the existing file; the C++
standard leaves its iteration order open, so `setOrder` names the order in
which a set built from the given insertions is written. -/
def createDir (setOrder : List Int → List Int) (stateFile : Option Str) (uidvalidity : Int)
    (messageUIDs : List Int) (headersOnly : Bool) : Str :=
  let allUIDs : List Int :=
    match stateFile with
    | none => messageUIDs
    | some content => messageUIDs ++ createDirStoredUIDs (getlines content)
  "HeadersOnly: ".toList ++ boolalpha headersOnly ++ ['\n'] ++
  ("UIDVALIDITY: ".toList ++ printInt uidvalidity ++ ['\n']) ++
  ("UIDs: ".toList ++ ((setOrder allUIDs).map (fun uid => printInt uid ++ [' '])).flatten ++ ['\n'])

/-! ## The synchronisation part of `main` (`src/main.cpp`, lines 107 to 142) -/

/-- What one run does to the state file. -/
structure SyncRun where
  /-- The list `checkValidity` returned; the fetch loop runs over it. -/
  uidsToDownload : List Int
  /-- The state file after the `createDir` call of line 119 (unchanged when
  there is nothing to download). -/
  afterCreateDir : Option Str
  /-- The state file when the run ends. -/
  atEnd : Option Str
deriving DecidableEq

/-- Lines 107 to 142 of `main`, as far as `state.txt` is concerned.  The fetch
loop of lines 122 to 136 writes message files only and its results
(`fetchSuccess`) are not used after the loop, so it does not appear.  `none`:
`checkValidity` left through an exception, which `main` catches at line 146. -/
def mainSync (setOrder : List Int → List Int) (stateFile : Option Str) (indeterminate : Int)
    (uidvalidity : Int) (serverUIDs : List Int) (headersOnly : Bool) : Option SyncRun :=
  if serverUIDs.isEmpty then
    some { uidsToDownload := [], afterCreateDir := stateFile, atEnd := stateFile }
  else
    match checkValidity stateFile indeterminate uidvalidity serverUIDs headersOnly with
    | none => none
    | some uidsToDownload =>
      let afterCreateDir : Option Str :=
        if uidsToDownload.isEmpty then stateFile
        else some (createDir setOrder stateFile uidvalidity uidsToDownload headersOnly)
      some { uidsToDownload := uidsToDownload,
             afterCreateDir := afterCreateDir,
             atEnd := some (updateStateFile uidvalidity serverUIDs headersOnly) }

/-! ## Response accumulation over TLS (`src/imaps.cpp`) -/

/-- When `p` stands at the head of `s`, the text after it. -/
def stripPrefix (p s : Str) : Option Str :=
  if p.isPrefixOf s then some (s.drop p.length) else none

/-- The part `(OK|NO|BAD)\s.*\r\n` of the completion pattern for one of the
three status words `w`, matched at the head of `s`: the word, one white-space
character, any characters other than `\r` and `\n` (the `.` of an ECMAScript
pattern matches no line terminator), then `\r\n`.  As `.` cannot match `\r`,
the only place where `\r\n` can follow `.*` is the end of the maximal run. -/
def matchStatusWord (w s : Str) : Bool :=
  match stripPrefix w s with
  | none => false
  | some [] => false
  | some (c2 :: s5) =>
    isspace c2 &&
    ("\r\n".toList).isPrefixOf (s5.dropWhile (fun c => c != '\r' && c != '\n'))

/-- The pattern `\r\n[a-zA-Z0-9]+\s(OK|NO|BAD)\s.*\r\n` matched at the head of
`s`.  The character after `[a-zA-Z0-9]+` has to match `\s`, which no
alphanumeric character does, so the run is the maximal one. -/
def matchStatusAt (s : Str) : Bool :=
  match stripPrefix "\r\n".toList s with
  | none => false
  | some s1 =>
    match s1.dropWhile isalnum with
    | [] => false
    | c1 :: s3 =>
      !(s1.takeWhile isalnum).isEmpty && isspace c1 &&
      (matchStatusWord "OK".toList s3 || matchStatusWord "NO".toList s3 ||
        matchStatusWord "BAD".toList s3)

/-- The call `regex_search(response, regex(R"(\r\n[a-zA-Z0-9]+\s(OK|NO|BAD)\s.*\r\n)"))`
of line 251: the pattern matches at some position of `response`. -/
def regexSearchStatus : Str → Bool
  | [] => false
  | c :: cs => matchStatusAt (c :: cs) || regexSearchStatus cs

/-- The outcome of one `BIO_read(bio, buffer, sizeof(buffer) - 1)` together
with what `BIO_should_retry(bio)` answers after it.  `bytes` are the bytes
stored in the buffer, `bytes.length` is the value returned when some were
read; an empty `bytes` stands for a return value `<= 0`. -/
structure BioRead where
  /-- The bytes placed in the buffer, at most 4095 of them. -/
  bytes : Str
  /-- The answer of `BIO_should_retry` after this call. -/
  shouldRetry : Bool
deriving DecidableEq

/-- A TLS transport as the reader sees it: the outcome of its first, second,
... `BIO_read`. -/
abbrev BioStream := Nat → BioRead

/-- The `while (true)` loop of `readIMAPSResponse` (lines 237 to 254).
`fuel` bounds the number of `BIO_read` calls the model follows: `none` means
the loop is still running after `fuel` reads.  `some (b, r)`: the function
returned `b` with `response` equal to `r`.  `buffer[bytesRead] = 0; response
+= buffer` appends the bytes read up to their first NUL. -/
def readIMAPSResponseLoop : Nat → BioStream → Str → Option (Bool × Str)
  | 0, _, _ => none
  | fuel + 1, bio, response =>
    if (bio 0).bytes.isEmpty then
      if !(bio 0).shouldRetry then some (false, response)
      else readIMAPSResponseLoop fuel (fun n => bio (n + 1)) response
    else
      let response1 := response ++ (bio 0).bytes.takeWhile (· != '\x00')
      if regexSearchStatus response1 then some (true, response1)
      else readIMAPSResponseLoop fuel (fun n => bio (n + 1)) response1

/-- The function `readIMAPSResponse` of `src/imaps.cpp`: `response.clear()`,
then the loop. -/
def readIMAPSResponse (fuel : Nat) (bio : BioStream) : Option (Bool × Str) :=
  readIMAPSResponseLoop fuel bio []

/-! ## Searching over the plain transport (`src/imap.cpp`) -/

/-- Lines 181 to 203 of `searchMessages` (the same text as lines 207 to 229 of
the TLS variant): the integers between `* SEARCH` and the next `\r\n`.  When
there is no `\r\n`, `end` is `npos`, `start < end` holds and `substr` runs to
the end of the response.  `start` never exceeds the size, so `substr` does not
throw. -/
def parseSearchResponse (response : Str) : List Int :=
  match find "* SEARCH".toList response with
  | none => []
  | some searchPos =>
    let start := searchPos + 8
    match findFrom "\r\n".toList response start with
    | none => readInts (response.drop start)
    | some e =>
      if start < e then readInts ((response.drop start).take (e - start)) else []

/-- The function `searchMessages` of `src/imap.cpp` after the command was
built: `sent` tells whether `send` succeeded, `sock` gives the results of the
successive `recv` calls on the socket (`none`: a negative return value,
`some bytes`: the bytes received).  The function calls `recv` once; `string
response(buffer)` keeps the bytes up to the first NUL of the zeroed buffer. -/
def searchMessages (sent : Bool) (sock : Nat → Option Str) : List Int :=
  if !sent then []
  else
    match sock 0 with
    | none => []
    | some bytes => parseSearchResponse (bytes.takeWhile (· != '\x00'))

/-- A transport that delivers the given reads in order and then reports
a closed connection (`recv` returning 0 bytes). -/
def sockOf (reads : List Str) : Nat → Option Str :=
  fun n => some (reads.getD n [])

/-! ## Tags (`src/utils.cpp`) -/

/-- The effect of `setw(3)` and `setfill('0')` on the next item written: a
text shorter than three characters is filled on the left with `0` up to three
characters (the default adjustment is `right`); a longer text is written as it
is. -/
def setw3fill0 (s : Str) : Str :=
  List.replicate (3 - s.length) '0' ++ s

/-- The function `generateTag` of `src/utils.cpp`, on the value of the global
`commandCounter`: the tag it returns and the value the counter has afterwards
(`commandCounter++`). -/
def generateTag (commandCounter : Int) : Str × Int :=
  ('a' :: setw3fill0 (printInt commandCounter), commandCounter + 1)

/-- The results of `n` successive calls of `generateTag`, the first of them
made with the given value of `commandCounter`. -/
def generateTags (commandCounter : Int) : Nat → List Str
  | 0 => []
  | n + 1 =>
    (generateTag commandCounter).1 :: generateTags (generateTag commandCounter).2 n

/-! ## Authentication (`src/imap.cpp`, `src/imaps.cpp`) -/

/-- The test `strstr(buffer, pat) != NULL` on a buffer that was zeroed and
then received `bytes`: `pat` occurs in the bytes before their first NUL. -/
def strstr (bytes pat : Str) : Bool :=
  (find pat (bytes.takeWhile (· != '\x00'))).isSome

/-- What a call of `authenticate` or `authenticateBIO` leaves behind. -/
structure AuthOutcome where
  /-- The value returned. -/
  result : Bool
  /-- The value of the global `commandCounter` after the call. -/
  commandCounter : Int
  /-- The buffers handed to `send` or `BIO_write`, in order. -/
  written : List Str
deriving DecidableEq

/-- The function `authenticate` of `src/imap.cpp`.  `greeting` and `reply` are
the outcomes of the two `recv` calls (`none`: a negative return value, `some
bytes`: the bytes received, at most 1023), `sent` tells whether `send`
succeeded. -/
def authenticate (commandCounter : Int) (username password : Str)
    (greeting : Option Str) (sent : Bool) (reply : Option Str) : AuthOutcome :=
  match greeting with
  | none => { result := false, commandCounter := commandCounter, written := [] }
  | some g =>
    if !(strstr g "OK".toList) then
      { result := false, commandCounter := commandCounter, written := [] }
    else
      let tag := generateTag commandCounter
      let loginCommand := tag.1 ++ " LOGIN".toList ++ username ++ password ++ "\r\n".toList
      if !sent then
        { result := false, commandCounter := tag.2, written := [loginCommand] }
      else
        match reply with
        | none => { result := false, commandCounter := tag.2, written := [loginCommand] }
        | some r =>
          { result := strstr r "OK".toList, commandCounter := tag.2, written := [loginCommand] }

/-- The function `authenticateBIO` of `src/imaps.cpp`.  `greeting` and `reply`
are the bytes the two `BIO_read` calls stored (empty: a return value `<= 0`),
`accepted` tells whether `BIO_write` returned a positive value. -/
def authenticateBIO (commandCounter : Int) (username password : Str)
    (greeting : Str) (accepted : Bool) (reply : Str) : AuthOutcome :=
  if greeting.isEmpty then
    { result := false, commandCounter := commandCounter, written := [] }
  else if !(strstr greeting "OK".toList) then
    { result := false, commandCounter := commandCounter, written := [] }
  else
    let tag := generateTag commandCounter
    let loginCommand :=
      tag.1 ++ " LOGIN ".toList ++ username ++ " ".toList ++ password ++ "\r\n".toList
    if !accepted then
      { result := false, commandCounter := tag.2, written := [loginCommand] }
    else if reply.isEmpty then
      { result := false, commandCounter := tag.2, written := [loginCommand] }
    else
      { result := strstr reply "OK LOGIN Authentication succeeded".toList,
        commandCounter := tag.2, written := [loginCommand] }

/-! ## Selecting a mailbox (`src/imap.cpp`, `src/imaps.cpp`) -/

/-- The pattern `UIDVALIDITY (\d+)` matched at the head of `s`: the text of
group 1, the maximal run of digits (`\d+` is greedy and nothing follows it). -/
def matchUidValidityAt (s : Str) : Option Str :=
  match stripPrefix "UIDVALIDITY ".toList s with
  | none => none
  | some t => if (t.takeWhile isdigit).isEmpty then none else some (t.takeWhile isdigit)

/-- The call `regex_search(response, match, uidvalidity_regex)`: `match.str(1)`
of the leftmost match, `none` when the pattern matches nowhere. -/
def regexSearchUidValidity : Str → Option Str
  | [] => none
  | c :: cs =>
    match matchUidValidityAt (c :: cs) with
    | some digits => some digits
    | none => regexSearchUidValidity cs

/-- Lines 144 to 157 of `selectMailbox`, the same text as lines 165 to 178 of
the TLS variant: the value of the first `UIDVALIDITY <digits>`, else `-1` with
one of two messages.  `none`: `stoi` throws `std::out_of_range`. -/
def parseSelectResponse (response : Str) : Option Int :=
  match regexSearchUidValidity response with
  | some digits => stoi digits
  | none =>
    if (find "NO Mailbox not found".toList response).isSome then some (-1)
    else some (-1)

/-- The function `selectMailbox` of `src/imap.cpp` after the command was built:
`sent` tells whether `send` succeeded, `received` is the outcome of `recv`
(`none`: a negative return value).  `response.assign(buffer, bytesReceived)`
keeps all the bytes received. -/
def selectMailbox (sent : Bool) (received : Option Str) : Option Int :=
  if !sent then some (-1)
  else
    match received with
    | none => some (-1)
    | some bytes => parseSelectResponse bytes

/-- The function `selectMailboxBIO` of `src/imaps.cpp` after the command was
built: `accepted` tells whether `BIO_write` returned a positive value, `read`
is what `readIMAPSResponse` returned and left in `response`. -/
def selectMailboxBIO (accepted : Bool) (read : Bool × Str) : Option Int :=
  if !accepted then some (-1)
  else if !read.1 then some (-1)
  else parseSelectResponse read.2

/-! ## Normalising a fetched message (`src/utils.cpp`) -/

/-- The characters `.` matches in an ECMAScript pattern: all but `\r` and `\n`. -/
def isLineChar (c : Char) : Bool := c != '\r' && c != '\n'

/-- The call `regex_replace(response, regex(R"(^.*\r?\n)"), "")` of line 168.
`^` matches at the start of the text only (no `multiline` flag), so at most
the first line is removed: the maximal run of `.` characters, then `\r\n` or
`\n`.  When the run is followed by neither, nothing matches and the text is
unchanged. -/
def removeFirstLine (s : Str) : Str :=
  match s.dropWhile isLineChar with
  | '\r' :: '\n' :: t => t
  | '\n' :: t => t
  | _ => s

/-- The pattern `(\r?\n[a-zA-Z0-9]+\sOK\s.*)` of line 171 matched at the head
of `s`: the text after the match.  `.*` runs to the end of the line and stops
in front of `\r` or `\n`. -/
def matchOkLineAt (s : Str) : Option Str :=
  let afterBreak : Option Str :=
    match s with
    | '\r' :: '\n' :: t => some t
    | '\n' :: t => some t
    | _ => none
  match afterBreak with
  | none => none
  | some s1 =>
    if (s1.takeWhile isalnum).isEmpty then none
    else
      match s1.dropWhile isalnum with
      | c1 :: 'O' :: 'K' :: c2 :: s2 =>
        if isspace c1 && isspace c2 then some (s2.dropWhile isLineChar) else none
      | _ => none

/-- The call `regex_replace(formatted, imap_command_regex, "")` of line 172:
every match, from left to right, is deleted, the text between matches is kept.
A match is never empty, so `fuel = length + 1` suffices. -/
def removeOkLinesAux : Nat → Str → Str
  | 0, s => s
  | fuel + 1, s =>
    match matchOkLineAt s with
    | some rest => removeOkLinesAux fuel rest
    | none =>
      match s with
      | [] => []
      | c :: cs => c :: removeOkLinesAux fuel cs

/-- Line 172 on a whole text. -/
def removeOkLines (s : Str) : Str := removeOkLinesAux (s.length + 1) s

/-- The call `regex_replace(formatted, regex(R"(\)\s*$)"), "")` of line 175.
`$` matches at the end of the text only, so the match is the one `)` that
is followed by nothing but white space up to the end; it is deleted together
with that white space. -/
def removeTrailingParen : Str → Str
  | [] => []
  | c :: cs =>
    if c == ')' && cs.all isspace then [] else c :: removeTrailingParen cs

/-- The pattern `<name>: .+?\r?\n` matched at the head of `s`: the matched
text.  The lazy `.+?` takes at least one `.` character and goes on until
`\r?\n` matches, which it can only after the whole run. -/
def matchHeaderAt (name s : Str) : Option Str :=
  match stripPrefix (name ++ ": ".toList) s with
  | none => none
  | some t =>
    if (t.takeWhile isLineChar).isEmpty then none
    else
      match t.dropWhile isLineChar with
      | '\r' :: '\n' :: _ => some (name ++ ": ".toList ++ t.takeWhile isLineChar ++ "\r\n".toList)
      | '\n' :: _ => some (name ++ ": ".toList ++ t.takeWhile isLineChar ++ "\n".toList)
      | _ => none

/-- The statement `if (regex_search(formatted, match, regex(R"(<name>: .+?\r?\n)")))
field = match.str();` of lines 182 to 186: the text of the leftmost match, the
empty string when there is none. -/
def searchHeader (name : Str) : Str → Str
  | [] => []
  | c :: cs =>
    match matchHeaderAt name (c :: cs) with
    | some m => m
    | none => searchHeader name cs

/-- The function `formatToRFC5322` of `src/utils.cpp`. -/
def formatToRFC5322 (response : Str) (isHeader : Bool) : Str :=
  let formatted := removeTrailingParen (removeOkLines (removeFirstLine response))
  if isHeader then
    searchHeader "Date".toList formatted ++ searchHeader "From".toList formatted ++
    searchHeader "To".toList formatted ++ searchHeader "Subject".toList formatted ++
    searchHeader "Message-Id".toList formatted
  else formatted

/-! ## Searching over TLS (`src/imaps.cpp`) -/

/-- The function `searchMessagesBIO` of `src/imaps.cpp` after the command was
built: `accepted` tells whether `BIO_write` returned a positive value, `read`
is what `readIMAPSResponse` returned and left in `response`.  Line 202 returns
the empty list when `NO` occurs anywhere in the response. -/
def searchMessagesBIO (accepted : Bool) (read : Bool × Str) : List Int :=
  if !accepted then []
  else if !read.1 then []
  else if (find "NO".toList read.2).isSome then []
  else parseSearchResponse read.2

/-! ## The fetch loop and the exits of `main` (`src/main.cpp`) -/

/-- The loop of lines 122 to 136 of `main`: `fetchSuccess k` is the value the
`k`-th call of `fetchAndSaveMessage` or `fetchAndSaveMessageBIO` returns,
counted from the given index.  The result lists the identifiers for which the
loop reports `Failed to fetch or save message`; nothing else is kept of a
failure. -/
def fetchLoop (fetchSuccess : Nat → Bool) : Nat → List Int → List Int
  | _, [] => []
  | k, messageUID :: rest =>
    if fetchSuccess k then fetchLoop fetchSuccess (k + 1) rest
    else messageUID :: fetchLoop fetchSuccess (k + 1) rest

/-- What one run leaves behind: the state file, and the identifiers whose
fetch was reported as failed. -/
structure RunReport where
  /-- The fetch list and the state file at the stages of the run. -/
  sync : SyncRun
  /-- The identifiers whose fetch returned `false`. -/
  failed : List Int
deriving DecidableEq

/-- Lines 107 to 142 of `main` with the fetch loop: `checkValidity`, then
for a non-empty fetch list `createDir` and the loop, then `updateStateFile`
with `serverUIDs`.  `none`: `checkValidity` left through an exception. -/
def mainRun (setOrder : List Int → List Int) (fetchSuccess : Nat → Bool)
    (stateFile : Option Str) (indeterminate : Int) (uidvalidity : Int)
    (serverUIDs : List Int) (headersOnly : Bool) : Option RunReport :=
  if serverUIDs.isEmpty then
    some { sync := { uidsToDownload := [], afterCreateDir := stateFile, atEnd := stateFile },
           failed := [] }
  else
    match checkValidity stateFile indeterminate uidvalidity serverUIDs headersOnly with
    | none => none
    | some uidsToDownload =>
      if uidsToDownload.isEmpty then
        some { sync := { uidsToDownload := uidsToDownload, afterCreateDir := stateFile,
                         atEnd := some (updateStateFile uidvalidity serverUIDs headersOnly) },
               failed := [] }
      else
        some { sync := { uidsToDownload := uidsToDownload,
                         afterCreateDir :=
                           some (createDir setOrder stateFile uidvalidity uidsToDownload headersOnly),
                         atEnd := some (updateStateFile uidvalidity serverUIDs headersOnly) },
               failed := fetchLoop fetchSuccess 0 uidsToDownload }

/-- What `main` does to the connection on its way out. -/
inductive Action where
  /-- The command handed to `send` or `BIO_write` by `logout` or `logoutBIO`. -/
  | logoutCommand (bytes : Str)
  /-- The call `close(sockfd)`, or `BIO_free_all(bio)` with `SSL_CTX_free`. -/
  | closeConnection
deriving DecidableEq

/-- The command `logout` and `logoutBIO` build: a fresh tag and ` LOGOUT`. -/
def logoutCommand (commandCounter : Int) : Str :=
  (generateTag commandCounter).1 ++ " LOGOUT\r\n".toList

/-- The value `main` returns and what it did to the connection. -/
structure MainExit where
  /-- The value returned by `main`. -/
  code : Int
  /-- The LOGOUT writes and the closing of the connection, in order. -/
  actions : List Action
deriving DecidableEq

/-- Lines 76 to 156 of `main` once the connection is established, plain or
TLS: `authenticated` is the value of `authenticate` or `authenticateBIO`,
`selected` the value of `selectMailbox` or `selectMailboxBIO` (`none`: it
threw), `synced` tells whether lines 86 to 142 ran without an exception, and
`commandCounter` is the value of the tag counter when line 145 is reached.
An exception lands in the `catch` block of lines 146 to 152. -/
def mainAfterConnect (commandCounter : Int) (authenticated : Bool) (selected : Option Int)
    (synced : Bool) : MainExit :=
  if !authenticated then { code := -1, actions := [Action.closeConnection] }
  else
    match selected with
    | none => { code := -1, actions := [Action.closeConnection] }
    | some uidvalidity =>
      if uidvalidity == -1 then { code := -1, actions := [Action.closeConnection] }
      else if !synced then { code := -1, actions := [Action.closeConnection] }
      else
        { code := 0,
          actions := [Action.logoutCommand (logoutCommand commandCounter),
                      Action.closeConnection] }

/-! ## Vocabulary of the statements about the transport -/

/-- A transport that delivers `chunks`, one per read, and then behaves as
`after`. -/
def deliver : List Str → BioStream → BioStream
  | [], after => after
  | c :: cs, after => fun n =>
    match n with
    | 0 => { bytes := c, shouldRetry := false }
    | k + 1 => deliver cs after k

/-- The response accumulated by the first `k` reads of `bio`. -/
def accumulated (bio : BioStream) : Nat → Str
  | 0 => []
  | k + 1 => accumulated bio k ++ (bio k).bytes.takeWhile (· != '\x00')

/-- None of the first `k` reads delivers a terminator or fails for good: a
read that returns no bytes is retryable, and the text accumulated after each
read has no match of the completion pattern. -/
def keepsReading (bio : BioStream) (k : Nat) : Prop :=
  ∀ i < k, ((bio i).bytes = [] → (bio i).shouldRetry = true) ∧
    regexSearchStatus (accumulated bio (i + 1)) = false

instance (bio : BioStream) (k : Nat) : Decidable (keepsReading bio k) := by
  unfold keepsReading; infer_instance

/-- Some line of `text` begins with `t`: `t` stands at the very start of the
text or right after a line feed. -/
def someLineBeginsWith (t text : Str) : Bool :=
  t.isPrefixOf text || (find ('\n' :: t) text).isSome

/-! ## Vocabulary of the statements about numbers, state files and status lines -/

/-- The value of a digit string read left to right from the accumulator. -/
def decValue (ds : Str) (acc : Nat) : Nat :=
  ds.foldl (fun a c => a * 10 + (c.toNat - 48)) acc

/-- The text of the identifiers as the state file holds it after `UIDs:`. -/
def uidsText (uids : List Int) : Str :=
  (uids.map (fun uid => printInt uid ++ [' '])).flatten

/-- The `UIDVALIDITY:` line of a state file. -/
def epochLine (uidvalidity : Int) : Str := "UIDVALIDITY: ".toList ++ printInt uidvalidity

/-- The `UIDs:` line of a state file. -/
def uidsLine (uids : List Int) : Str := "UIDs: ".toList ++ uidsText uids

/-- The `HeadersOnly:` line of a state file. -/
def flagLine (headersOnly : Bool) : Str := "HeadersOnly: ".toList ++ boolalpha headersOnly

/-- The shape of a match of `\r\n[a-zA-Z0-9]+\s(OK|NO|BAD)\s.*\r\n`: a line
end, a non-empty alphanumeric token, one white-space character, one of the
three status words, one white-space character, text free of `\r` and `\n`,
and a line end. -/
def StatusLine (m : Str) : Prop :=
  ∃ (tag w text : Str) (c1 c2 : Char),
    m = "\r\n".toList ++ (tag ++ c1 :: (w ++ c2 :: (text ++ "\r\n".toList))) ∧
    tag ≠ [] ∧ (∀ c ∈ tag, isalnum c = true) ∧ isspace c1 = true ∧
    (w = "OK".toList ∨ w = "NO".toList ∨ w = "BAD".toList) ∧ isspace c2 = true ∧
    (∀ c ∈ text, c ≠ '\r' ∧ c ≠ '\n')

/-- The text `s` contains a match of the completion pattern. -/
def HasStatusLine (s : Str) : Prop :=
  ∃ pre m post : Str, s = pre ++ (m ++ post) ∧ StatusLine m

/-- The keyword `UIDVALIDITY ` immediately followed by a decimal digit stands
at index `i` of `s`. -/
def EpochAt (s : Str) (i : Nat) : Prop :=
  ∃ (d : Char) (rest : Str), s.drop i = "UIDVALIDITY ".toList ++ d :: rest ∧ isdigit d = true

/-- The text of an identifier list in a SEARCH response: every identifier
preceded by one space. -/
def searchLine (ns : List Int) : Str :=
  (ns.map (fun n => ' ' :: printInt n)).flatten

/-- A piece of output that holds no occurrence of `pat` and is empty or ends
with a line feed. -/
def CleanPiece (pat piece : Str) : Prop :=
  ¬ pat <:+: piece ∧ (piece = [] ∨ ∃ body, piece = body ++ ['\n'])

/-! ## Library lemmas: characters and digits -/

theorem isdigit_digitChar (k : Nat) (hk : k < 10) : isdigit (Nat.digitChar k) = true := by
  interval_cases k <;> decide

theorem toNat_digitChar (k : Nat) (hk : k < 10) : (Nat.digitChar k).toNat - 48 = k := by
  interval_cases k <;> decide

theorem isdigit_not_isspace (c : Char) (h : isdigit c = true) : isspace c = false := by
  simp only [isdigit, isspace, Bool.and_eq_true, decide_eq_true_eq, Bool.or_eq_false_iff,
    beq_eq_false_iff_ne, Bool.and_eq_false_iff, decide_eq_false_iff_not] at *
  omega

theorem toNat_of_isdigit (c : Char) (h : isdigit c = true) : 48 ≤ c.toNat ∧ c.toNat ≤ 57 := by
  simpa [isdigit] using h

theorem scanDigits_append (ds R : Str) (acc : Nat) (hds : ∀ c ∈ ds, isdigit c = true) :
    scanDigits (ds ++ R) acc = scanDigits R (decValue ds acc) := by
  induction ds generalizing acc with
  | nil => rfl
  | cons d ds ih =>
    have hd : isdigit d = true := hds d (List.mem_cons_self _ _)
    show scanDigits (d :: (ds ++ R)) acc = _
    rw [scanDigits]
    simp only [hd, if_true]
    exact ih _ (fun c hc => hds c (List.mem_cons_of_mem _ hc))

theorem scanDigits_stop (R : Str) (acc : Nat) (hR : ∀ c ∈ R.head?, isdigit c = false) :
    scanDigits R acc = (acc, R) := by
  cases R with
  | nil => rfl
  | cons c cs =>
    have hc : isdigit c = false := hR c (by simp)
    simp [scanDigits, hc]

theorem toDigitsCore_append (fuel n : Nat) (ds : Str) :
    Nat.toDigitsCore 10 fuel n ds = Nat.toDigitsCore 10 fuel n [] ++ ds := by
  induction fuel generalizing n ds with
  | zero => rfl
  | succ f ih =>
    simp only [Nat.toDigitsCore]
    split
    · rfl
    · rw [ih (n / 10) (Nat.digitChar (n % 10) :: ds), ih (n / 10) [Nat.digitChar (n % 10)]]
      simp

theorem toDigitsCore_spec (fuel n : Nat) (h : n < fuel) :
    (∀ c ∈ Nat.toDigitsCore 10 fuel n [], isdigit c = true) ∧
    decValue (Nat.toDigitsCore 10 fuel n []) 0 = n ∧
    Nat.toDigitsCore 10 fuel n [] ≠ [] := by
  induction fuel generalizing n with
  | zero => omega
  | succ f ih =>
    have hmod : n % 10 < 10 := Nat.mod_lt _ (by decide)
    simp only [Nat.toDigitsCore]
    split
    · rename_i h0
      refine ⟨?_, ?_, by simp⟩
      · intro c hc
        simp only [List.mem_singleton] at hc
        subst hc
        exact isdigit_digitChar _ hmod
      · simp only [decValue, List.foldl, Nat.zero_mul, Nat.zero_add]
        rw [toNat_digitChar _ hmod]
        omega
    · rename_i h0
      have hlt : n / 10 < f := by omega
      obtain ⟨h1, h2, _⟩ := ih (n / 10) hlt
      rw [toDigitsCore_append]
      refine ⟨?_, ?_, by simp⟩
      · intro c hc
        simp only [List.mem_append, List.mem_singleton] at hc
        rcases hc with hc | hc
        · exact h1 c hc
        · subst hc
          exact isdigit_digitChar _ hmod
      · unfold decValue at h2 ⊢
        rw [List.foldl_append, h2]
        simp only [List.foldl]
        rw [toNat_digitChar _ hmod]
        omega

theorem toDigits_isdigit (n : Nat) : ∀ c ∈ Nat.toDigits 10 n, isdigit c = true :=
  (toDigitsCore_spec (n + 1) n (Nat.lt_succ_self n)).1

theorem toDigits_value (n : Nat) : decValue (Nat.toDigits 10 n) 0 = n :=
  (toDigitsCore_spec (n + 1) n (Nat.lt_succ_self n)).2.1

theorem toDigits_ne_nil (n : Nat) : Nat.toDigits 10 n ≠ [] :=
  (toDigitsCore_spec (n + 1) n (Nat.lt_succ_self n)).2.2

theorem scanDigits_toDigits (n : Nat) (R : Str) (hR : ∀ c ∈ R.head?, isdigit c = false) :
    scanDigits (Nat.toDigits 10 n ++ R) 0 = (n, R) := by
  rw [scanDigits_append _ _ _ (toDigits_isdigit n), toDigits_value, scanDigits_stop _ _ hR]

/-! ## Library lemmas: printing and reading integers -/

theorem printInt_chars (v : Int) : ∀ c ∈ printInt v, c = '-' ∨ isdigit c = true := by
  intro c hc
  unfold printInt at hc
  split at hc
  · rcases List.mem_cons.1 hc with h | h
    · exact Or.inl h
    · exact Or.inr (toDigits_isdigit _ c h)
  · exact Or.inr (toDigits_isdigit _ c hc)

theorem scanSign_digit (c : Char) (t : Str) (h : isdigit c = true) :
    scanSign (c :: t) = (false, c :: t) := by
  unfold scanSign
  split
  · rename_i heq
    simp only [List.cons.injEq] at heq
    obtain ⟨rfl, _⟩ := heq
    exact absurd h (by decide)
  · rename_i heq
    simp only [List.cons.injEq] at heq
    obtain ⟨rfl, _⟩ := heq
    exact absurd h (by decide)
  · rfl

theorem scanInt_printInt (v : Int) (R : Str) (hR : ∀ c ∈ R.head?, isdigit c = false) :
    scanInt (' ' :: (printInt v ++ R)) = some (v, R) := by
  obtain ⟨c, cs, hD⟩ := List.exists_cons_of_ne_nil (toDigits_ne_nil v.natAbs)
  have hc : isdigit c = true := toDigits_isdigit v.natAbs c (by rw [hD]; exact List.mem_cons_self _ _)
  have hsc : scanDigits (c :: (cs ++ R)) 0 = (v.natAbs, R) := by
    have := scanDigits_toDigits v.natAbs R hR
    rwa [hD] at this
  have hsp : isspace c = false := isdigit_not_isspace c hc
  have h1 : isspace ' ' = true := by decide
  have h2 : isspace '-' = false := by decide
  unfold printInt
  by_cases hv : v < 0
  · simp only [hv, if_true, hD, List.cons_append]
    unfold scanInt
    have hs : scanSign ('-' :: c :: (cs ++ R)) = (true, c :: (cs ++ R)) := rfl
    simp only [List.dropWhile, h1, h2, hs, hc, hsc, if_true]
    congr 2
    omega
  · simp only [hv, if_false, hD, List.cons_append]
    unfold scanInt
    simp only [List.dropWhile, h1, hsp, scanSign_digit c _ hc, hc, hsc, if_true]
    congr 2
    simp only [Bool.false_eq_true, if_false]
    omega

theorem stoi_printInt (v : Int) (hv : inIntRange v) : stoi (' ' :: printInt v) = some v := by
  have := scanInt_printInt v [] (by simp)
  rw [List.append_nil] at this
  simp [stoi, this, hv]

theorem extractInt_printInt (v : Int) (hv : inIntRange v) (R : Str) :
    extractInt (' ' :: (printInt v ++ ' ' :: R)) = some (v, ' ' :: R) := by
  have := scanInt_printInt v (' ' :: R) (by simp; decide)
  simp [extractInt, this, hv]

theorem extractInt_blank : extractInt [' '] = none := by decide

theorem readIntsAux_uidsText (uids : List Int) (h : ∀ u ∈ uids, inIntRange u) (fuel : Nat)
    (hf : (' ' :: uidsText uids).length ≤ fuel) :
    readIntsAux fuel (' ' :: uidsText uids) = uids := by
  induction uids generalizing fuel with
  | nil =>
    cases fuel with
    | zero => simp at hf
    | succ f => simp [readIntsAux, uidsText, extractInt_blank]
  | cons u us ih =>
    cases fuel with
    | zero => simp at hf
    | succ f =>
      have hu : inIntRange u := h u (List.mem_cons_self _ _)
      have hstep : ' ' :: uidsText (u :: us) = ' ' :: (printInt u ++ ' ' :: uidsText us) := by
        simp [uidsText]
      rw [hstep] at hf ⊢
      simp only [readIntsAux, extractInt_printInt u hu]
      rw [ih (fun x hx => h x (List.mem_cons_of_mem _ hx)) f]
      simp only [List.length_cons, List.length_append] at hf ⊢
      omega

theorem readInts_uidsText (uids : List Int) (h : ∀ u ∈ uids, inIntRange u) :
    readInts (' ' :: uidsText uids) = uids :=
  readIntsAux_uidsText uids h _ (le_refl _)

/-! ## Library lemmas: searching and line splitting -/

theorem mem_of_isPrefixOf (pat s : Str) (h : pat.isPrefixOf s = true) : ∀ c ∈ pat, c ∈ s := by
  intro c hc
  exact (List.isPrefixOf_iff_prefix.1 h).subset hc

theorem find_none_of_not_mem (pat s : Str) (c : Char) (hc : c ∈ pat) (hs : c ∉ s) :
    find pat s = none := by
  induction s with
  | nil =>
    have : pat.isEmpty = false := by
      cases pat with
      | nil => simp at hc
      | cons _ _ => rfl
    simp [find, this]
  | cons x xs ih =>
    have hpre : pat.isPrefixOf (x :: xs) = false := by
      by_contra hcon
      exact hs (mem_of_isPrefixOf pat (x :: xs) (by simpa using hcon) c hc)
    have hxs : c ∉ xs := fun h => hs (List.mem_cons_of_mem _ h)
    simp [find, hpre, ih hxs]

theorem find_zero (pat s : Str) (h : pat.isPrefixOf s = true) : find pat s = some 0 := by
  cases s with
  | nil =>
    cases pat with
    | nil => rfl
    | cons _ _ => simp [List.isPrefixOf] at h
  | cons x xs => simp [find, h]

theorem find_char (c : Char) (a b : Str) (ha : c ∉ a) :
    find [c] (a ++ c :: b) = some a.length := by
  induction a with
  | nil => simp [find, List.isPrefixOf]
  | cons x xs ih =>
    have hx : ¬ c = x := fun h => ha (by simp [h])
    have hxs : c ∉ xs := fun h => ha (List.mem_cons_of_mem _ h)
    have hb : ([c] : Str).isPrefixOf (x :: (xs ++ c :: b)) = false := by
      simp [List.isPrefixOf, hx]
    show find [c] (x :: (xs ++ c :: b)) = _
    rw [find, hb, ih hxs]
    simp

theorem takeWhile_line (l rest : Str) (hl : '\n' ∉ l) :
    (l ++ '\n' :: rest).takeWhile (· != '\n') = l := by
  induction l with
  | nil => simp [List.takeWhile]
  | cons x xs ih =>
    have hx : (x != '\n') = true := by
      simpa using fun h : x = '\n' => hl (by simp [h])
    have := ih (fun h => hl (List.mem_cons_of_mem _ h))
    simp only [List.cons_append, List.takeWhile_cons, hx, if_true, this]

theorem dropWhile_line (l rest : Str) (hl : '\n' ∉ l) :
    (l ++ '\n' :: rest).dropWhile (· != '\n') = '\n' :: rest := by
  induction l with
  | nil => simp [List.dropWhile]
  | cons x xs ih =>
    have hx : (x != '\n') = true := by
      simpa using fun h : x = '\n' => hl (by simp [h])
    have := ih (fun h => hl (List.mem_cons_of_mem _ h))
    simp only [List.cons_append, List.dropWhile_cons, hx, if_true, this]

theorem getline_of_ne_nil (s : Str) (hs : s ≠ []) :
    getline s = some (s.takeWhile (· != '\n'), (s.dropWhile (· != '\n')).drop 1) := by
  cases s with
  | nil => exact absurd rfl hs
  | cons _ _ => rfl

theorem getline_line (l rest : Str) (hl : '\n' ∉ l) :
    getline (l ++ '\n' :: rest) = some (l, rest) := by
  rw [getline_of_ne_nil _ (by simp), takeWhile_line l rest hl, dropWhile_line l rest hl]
  rfl

theorem getlinesAux_nil (fuel : Nat) : getlinesAux fuel [] = [] := by
  cases fuel <;> rfl

theorem getlinesAux_line (fuel : Nat) (l rest : Str) (hl : '\n' ∉ l) :
    getlinesAux (fuel + 1) (l ++ '\n' :: rest) = l :: getlinesAux fuel rest := by
  simp [getlinesAux, getline_line l rest hl]

theorem getlines_three (l1 l2 l3 : Str) (h1 : '\n' ∉ l1) (h2 : '\n' ∉ l2) (h3 : '\n' ∉ l3) :
    getlines (l1 ++ ['\n'] ++ (l2 ++ ['\n']) ++ (l3 ++ ['\n'])) = [l1, l2, l3] := by
  have e : l1 ++ ['\n'] ++ (l2 ++ ['\n']) ++ (l3 ++ ['\n'])
      = l1 ++ '\n' :: (l2 ++ '\n' :: (l3 ++ '\n' :: [])) := by simp
  unfold getlines
  rw [e]
  have hlen : (l1 ++ '\n' :: (l2 ++ '\n' :: (l3 ++ '\n' :: []))).length
      = (l1.length + l2.length + l3.length) + 1 + 1 + 1 := by
    simp only [List.length_append, List.length_cons, List.length_nil]; omega
  rw [hlen, getlinesAux_line _ _ _ h1, getlinesAux_line _ _ _ h2, getlinesAux_line _ _ _ h3,
    getlinesAux_nil]

/-! ## Reading back a state file written by the client -/

theorem uidsText_chars (uids : List Int) :
    ∀ c ∈ uidsText uids, c = ' ' ∨ c = '-' ∨ isdigit c = true := by
  intro c hc
  simp only [uidsText, List.mem_flatten, List.mem_map] at hc
  obtain ⟨l, ⟨u, _, rfl⟩, hcl⟩ := hc
  rcases List.mem_append.1 hcl with h | h
  · exact Or.inr (printInt_chars u c h)
  · exact Or.inl (by simpa using h)

theorem not_mem_printInt (c : Char) (v : Int) (h1 : c ≠ '-') (h2 : isdigit c = false) :
    c ∉ printInt v := by
  intro hc
  rcases printInt_chars v c hc with h | h
  · exact h1 h
  · rw [h2] at h; exact Bool.false_ne_true h

theorem not_mem_uidsText (c : Char) (uids : List Int) (h0 : c ≠ ' ') (h1 : c ≠ '-')
    (h2 : isdigit c = false) : c ∉ uidsText uids := by
  intro hc
  rcases uidsText_chars uids c hc with h | h | h
  · exact h0 h
  · exact h1 h
  · rw [h2] at h; exact Bool.false_ne_true h

theorem updateStateFile_lines (e : Int) (P : List Int) (h : Bool) :
    getlines (updateStateFile e P h) = [flagLine h, epochLine e, uidsLine P] := by
  have hform : updateStateFile e P h
      = flagLine h ++ ['\n'] ++ (epochLine e ++ ['\n']) ++ (uidsLine P ++ ['\n']) := rfl
  rw [hform]
  apply getlines_three
  · cases h <;> decide
  · unfold epochLine
    intro hc
    rcases List.mem_append.1 hc with hc | hc
    · revert hc; decide
    · exact not_mem_printInt _ e (by decide) (by decide) hc
  · unfold uidsLine
    intro hc
    rcases List.mem_append.1 hc with hc | hc
    · revert hc; decide
    · exact not_mem_uidsText _ P (by decide) (by decide) (by decide) hc

theorem loop_flagLine (cur : Int) (S : List Int) (hcur h : Bool) (rest : List Str)
    (sv : Int) (su : List Int) :
    checkValidityLoop cur S hcur (flagLine h :: rest) sv su
      = if h = hcur then checkValidityLoop cur S hcur rest sv su else some S := by
  cases h <;> cases hcur <;> rfl

theorem loop_epochLine (cur : Int) (S : List Int) (hcur : Bool) (e : Int) (he : inIntRange e)
    (rest : List Str) (sv : Int) (su : List Int) :
    checkValidityLoop cur S hcur (epochLine e :: rest) sv su
      = checkValidityLoop cur S hcur rest e su := by
  have hH : find "HeadersOnly:".toList (epochLine e) = none := by
    apply find_none_of_not_mem _ _ 'H' (by decide)
    unfold epochLine
    intro hc
    rcases List.mem_append.1 hc with hc | hc
    · revert hc; decide
    · exact not_mem_printInt _ e (by decide) (by decide) hc
  have hV : find "UIDVALIDITY:".toList (epochLine e) = some 0 :=
    find_zero _ _ (by simp [epochLine, List.isPrefixOf])
  have hform : epochLine e = "UIDVALIDITY".toList ++ ':' :: (' ' :: printInt e) := rfl
  have hC : find ":".toList (epochLine e) = some 11 := by
    rw [hform]
    exact find_char ':' _ _ (by decide)
  have hS : substr (epochLine e) (11 + 1) = some (' ' :: printInt e) := by
    rw [hform]
    simp [substr]
  rw [checkValidityLoop]
  simp only [headersOnlyMismatch, hH, hV, hC, hS, Option.isSome_none, Option.isSome_some,
    Bool.false_eq_true, if_false, if_true, stoi_printInt e he]

theorem loop_uidsLine (cur : Int) (S : List Int) (hcur : Bool) (P : List Int)
    (hP : ∀ u ∈ P, inIntRange u) (rest : List Str) (sv : Int) (su : List Int) :
    checkValidityLoop cur S hcur (uidsLine P :: rest) sv su
      = checkValidityLoop cur S hcur rest sv (su ++ P) := by
  have hH : find "HeadersOnly:".toList (uidsLine P) = none := by
    apply find_none_of_not_mem _ _ 'H' (by decide)
    unfold uidsLine
    intro hc
    rcases List.mem_append.1 hc with hc | hc
    · revert hc; decide
    · exact not_mem_uidsText _ P (by decide) (by decide) (by decide) hc
  have hV : find "UIDVALIDITY:".toList (uidsLine P) = none := by
    apply find_none_of_not_mem _ _ 'V' (by decide)
    unfold uidsLine
    intro hc
    rcases List.mem_append.1 hc with hc | hc
    · revert hc; decide
    · exact not_mem_uidsText _ P (by decide) (by decide) (by decide) hc
  have hU : find "UIDs:".toList (uidsLine P) = some 0 :=
    find_zero _ _ (by simp [uidsLine, List.isPrefixOf])
  have hform : uidsLine P = "UIDs".toList ++ ':' :: (' ' :: uidsText P) := rfl
  have hC : find ":".toList (uidsLine P) = some 4 := by
    rw [hform]
    exact find_char ':' _ _ (by decide)
  have hS : substr (uidsLine P) (4 + 1) = some (' ' :: uidsText P) := by
    rw [hform]
    simp [substr]
  rw [checkValidityLoop]
  simp only [headersOnlyMismatch, hH, hV, hU, hC, hS, Option.isSome_none, Option.isSome_some,
    Bool.false_eq_true, if_false, if_true, readInts_uidsText P hP]

/-- What `checkValidity` computes on a state file written by the client for
flag `h`, epoch `e` and identifiers `P`. -/
theorem checkValidity_written (e : Int) (P : List Int) (h : Bool) (he : inIntRange e)
    (hP : ∀ u ∈ P, inIntRange u) (g cur : Int) (S : List Int) (hcur : Bool) :
    checkValidity (some (updateStateFile e P h)) g cur S hcur
      = if h = hcur then
          (if e = cur then some (S.filter (fun uid => !(P.contains uid))) else some S)
        else some S := by
  unfold checkValidity
  simp only [updateStateFile_lines, loop_flagLine]
  split
  · rw [loop_epochLine _ _ _ _ he, loop_uidsLine _ _ _ _ hP]
    simp [checkValidityLoop]
  · rfl

/-- The text `createDir` writes is the text `updateStateFile` writes for the
merged identifiers in the order the set yields them. -/
theorem createDir_eq_updateStateFile (setOrder : List Int → List Int) (content : Str)
    (uidvalidity : Int) (messageUIDs : List Int) (headersOnly : Bool) :
    createDir setOrder (some content) uidvalidity messageUIDs headersOnly
      = updateStateFile uidvalidity
          (setOrder (messageUIDs ++ createDirStoredUIDs (getlines content))) headersOnly := rfl

theorem filter_not_contains (S P : List Int) :
    S.filter (fun uid => !(P.contains uid)) = S.filter (fun uid => decide (uid ∉ P)) := by
  apply List.filter_congr
  intro x _
  simp

/-! ## The completion pattern, position by position -/

theorem stripPrefix_append (p t : Str) : stripPrefix p (p ++ t) = some t := by
  have h : p.isPrefixOf (p ++ t) = true := List.isPrefixOf_iff_prefix.2 (List.prefix_append p t)
  simp [stripPrefix, h]

theorem stripPrefix_some (p s t : Str) (h : stripPrefix p s = some t) : s = p ++ t := by
  unfold stripPrefix at h
  split at h
  · rename_i hp
    have := List.prefix_iff_eq_append.1 (List.isPrefixOf_iff_prefix.1 hp)
    simp only [Option.some.injEq] at h
    rw [← h, this]
  · simp at h

theorem isspace_not_isalnum (c : Char) (h : isspace c = true) : isalnum c = false := by
  simp only [isalnum, isspace, Bool.and_eq_true, decide_eq_true_eq, Bool.or_eq_true,
    beq_iff_eq, Bool.or_eq_false_iff, Bool.and_eq_false_iff, decide_eq_false_iff_not] at *
  omega

theorem takeWhile_append_stop (p : Char → Bool) (a : Str) (x : Char) (b : Str)
    (ha : ∀ c ∈ a, p c = true) (hx : p x = false) :
    (a ++ x :: b).takeWhile p = a := by
  rw [List.takeWhile_append_of_pos ha]
  simp [List.takeWhile_cons, hx]

theorem dropWhile_append_stop (p : Char → Bool) (a : Str) (x : Char) (b : Str)
    (ha : ∀ c ∈ a, p c = true) (hx : p x = false) :
    (a ++ x :: b).dropWhile p = x :: b := by
  rw [List.dropWhile_append_of_pos ha]
  simp [List.dropWhile_cons, hx]

theorem matchStatusWord_intro (w text post : Str) (c2 : Char) (h2 : isspace c2 = true)
    (ht : ∀ c ∈ text, c ≠ '\r' ∧ c ≠ '\n') :
    matchStatusWord w (w ++ c2 :: (text ++ ("\r\n".toList ++ post))) = true := by
  have hd : (text ++ '\r' :: ('\n' :: post)).dropWhile (fun c => c != '\r' && c != '\n')
      = '\r' :: ('\n' :: post) := by
    apply dropWhile_append_stop
    · intro c hc
      have := ht c hc
      simp [this.1, this.2]
    · rfl
  have e : text ++ ("\r\n".toList ++ post) = text ++ '\r' :: ('\n' :: post) := rfl
  unfold matchStatusWord
  rw [stripPrefix_append, e]
  show (isspace c2 && ("\r\n".toList).isPrefixOf
    ((text ++ '\r' :: ('\n' :: post)).dropWhile (fun c => c != '\r' && c != '\n'))) = true
  rw [hd]
  simp [h2, List.isPrefixOf]

theorem matchStatusWord_elim (w s : Str) (h : matchStatusWord w s = true) :
    ∃ (c2 : Char) (text post : Str),
      s = w ++ c2 :: (text ++ ("\r\n".toList ++ post)) ∧ isspace c2 = true ∧
      (∀ c ∈ text, c ≠ '\r' ∧ c ≠ '\n') := by
  unfold matchStatusWord at h
  split at h
  · simp at h
  · simp at h
  · rename_i c2 s5 hs
    simp only [Bool.and_eq_true] at h
    obtain ⟨h2, h5⟩ := h
    have hpre := List.prefix_iff_eq_append.1 (List.isPrefixOf_iff_prefix.1 h5)
    have hsplit := List.takeWhile_append_dropWhile (fun c => c != '\r' && c != '\n') s5
    refine ⟨c2, s5.takeWhile (fun c => c != '\r' && c != '\n'),
      (s5.dropWhile (fun c => c != '\r' && c != '\n')).drop ("\r\n".toList).length, ?_, h2, ?_⟩
    · rw [stripPrefix_some w s _ hs, hpre, hsplit]
    · intro c hc
      have := List.mem_takeWhile_imp hc
      simpa using this

theorem matchStatusAt_intro (m post : Str) (hm : StatusLine m) :
    matchStatusAt (m ++ post) = true := by
  obtain ⟨tag, w, text, c1, c2, rfl, htag, halnum, h1, hw, h2, ht⟩ := hm
  have e : "\r\n".toList ++ (tag ++ c1 :: (w ++ c2 :: (text ++ "\r\n".toList))) ++ post
      = "\r\n".toList ++ (tag ++ c1 :: (w ++ c2 :: (text ++ ("\r\n".toList ++ post)))) := by
    simp
  have hc1 : isalnum c1 = false := isspace_not_isalnum c1 h1
  have hT := takeWhile_append_stop isalnum tag c1
    (w ++ c2 :: (text ++ ("\r\n".toList ++ post))) halnum hc1
  have hD := dropWhile_append_stop isalnum tag c1
    (w ++ c2 :: (text ++ ("\r\n".toList ++ post))) halnum hc1
  have hne : tag.isEmpty = false := by
    cases tag with
    | nil => exact absurd rfl htag
    | cons _ _ => rfl
  have hmw := matchStatusWord_intro w text post c2 h2 ht
  unfold matchStatusAt
  rw [e, stripPrefix_append]
  simp only [hT, hD, hne, h1, Bool.not_false, Bool.and_self, Bool.true_and, Bool.or_eq_true]
  rcases hw with rfl | rfl | rfl
  · exact Or.inl (Or.inl hmw)
  · exact Or.inl (Or.inr hmw)
  · exact Or.inr hmw

theorem matchStatusAt_elim (s : Str) (h : matchStatusAt s = true) :
    ∃ m post : Str, s = m ++ post ∧ StatusLine m := by
  unfold matchStatusAt at h
  split at h
  · simp at h
  · rename_i s1 hs1
    split at h
    · simp at h
    · rename_i c1 s3 hd
      simp only [Bool.and_eq_true, Bool.not_eq_true', Bool.or_eq_true] at h
      obtain ⟨⟨htag, h1⟩, hw⟩ := h
      have hsplit := List.takeWhile_append_dropWhile isalnum s1
      rw [hd] at hsplit
      have key : ∀ w : Str, matchStatusWord w s3 = true →
          (w = "OK".toList ∨ w = "NO".toList ∨ w = "BAD".toList) →
          ∃ m post : Str, s = m ++ post ∧ StatusLine m := by
        intro w hmw hwo
        obtain ⟨c2, text, post, hs3, h2, ht⟩ := matchStatusWord_elim w s3 hmw
        refine ⟨"\r\n".toList ++ (s1.takeWhile isalnum ++ c1 :: (w ++ c2 :: (text ++ "\r\n".toList))),
          post, ?_, s1.takeWhile isalnum, w, text, c1, c2, rfl, ?_, ?_, h1, hwo, h2, ht⟩
        · calc s = "\r\n".toList ++ s1 := stripPrefix_some _ s _ hs1
            _ = "\r\n".toList ++ (s1.takeWhile isalnum ++ c1 :: s3) := by rw [hsplit]
            _ = _ := by rw [hs3]; simp
        · intro hnil
          rw [hnil] at htag
          simp at htag
        · intro c hc
          exact List.mem_takeWhile_imp hc
      rcases hw with (hw | hw) | hw
      · exact key _ hw (Or.inl rfl)
      · exact key _ hw (Or.inr (Or.inl rfl))
      · exact key _ hw (Or.inr (Or.inr rfl))

theorem regexSearchStatus_nil_append (s : Str) (h : matchStatusAt s = true) :
    regexSearchStatus s = true := by
  cases s with
  | nil => simp [matchStatusAt, stripPrefix, List.isPrefixOf] at h
  | cons c cs => simp [regexSearchStatus, h]

/-- The search of line 251 succeeds exactly on the texts that contain a
status line of the shape `StatusLine`. -/
theorem regexSearchStatus_iff (s : Str) : regexSearchStatus s = true ↔ HasStatusLine s := by
  constructor
  · intro h
    induction s with
    | nil => simp [regexSearchStatus] at h
    | cons c cs ih =>
      simp only [regexSearchStatus, Bool.or_eq_true] at h
      rcases h with h | h
      · obtain ⟨m, post, hs, hm⟩ := matchStatusAt_elim _ h
        exact ⟨[], m, post, by simpa using hs, hm⟩
      · obtain ⟨pre, m, post, hs, hm⟩ := ih h
        exact ⟨c :: pre, m, post, by simp [hs], hm⟩
  · rintro ⟨pre, m, post, rfl, hm⟩
    induction pre with
    | nil => exact regexSearchStatus_nil_append _ (matchStatusAt_intro m post hm)
    | cons c cs ih =>
      show regexSearchStatus (c :: (cs ++ (m ++ post))) = true
      simp [regexSearchStatus, ih]

/-! ## The read loop -/

theorem takeWhile_no_nul (c : Str) (h : ∀ x ∈ c, x ≠ '\x00') :
    c.takeWhile (· != '\x00') = c := by
  rw [List.takeWhile_eq_self_iff]
  intro x hx
  simpa using h x hx

theorem accumulated_succ (bio : BioStream) (k : Nat) :
    accumulated bio (k + 1)
      = (bio 0).bytes.takeWhile (· != '\x00') ++ accumulated (fun n => bio (n + 1)) k := by
  induction k with
  | zero => simp [accumulated]
  | succ k ih =>
    rw [accumulated, ih, accumulated, List.append_assoc]

/-- While the reads keep the loop going, the loop only accumulates. -/
theorem loop_keepsReading (n : Nat) (bio : BioStream) (acc : Str) (fuel : Nat)
    (h : ∀ i < n, ((bio i).bytes = [] → (bio i).shouldRetry = true) ∧
      regexSearchStatus (acc ++ accumulated bio (i + 1)) = false) :
    readIMAPSResponseLoop (n + fuel) bio acc
      = readIMAPSResponseLoop fuel (fun j => bio (j + n)) (acc ++ accumulated bio n) := by
  induction n generalizing bio acc with
  | zero => simp [accumulated]
  | succ n ih =>
    have h0 := h 0 (Nat.succ_pos n)
    have hshift : (fun j => bio (j + (n + 1))) = (fun j => (fun m => bio (m + 1)) (j + n)) := by
      funext j
      show bio (j + (n + 1)) = bio (j + n + 1)
      rw [Nat.add_assoc]
    have hfuel : n + 1 + fuel = (n + fuel) + 1 := by omega
    rw [hfuel, readIMAPSResponseLoop, accumulated_succ, hshift]
    by_cases hb : (bio 0).bytes = []
    · have hr := h0.1 hb
      simp only [hb, List.isEmpty_nil, if_true, hr, Bool.not_true, Bool.false_eq_true, if_false,
        List.takeWhile_nil, List.nil_append]
      apply ih
      intro i hi
      have hi1 := h (i + 1) (Nat.succ_lt_succ hi)
      refine ⟨hi1.1, ?_⟩
      have := hi1.2
      rw [accumulated_succ, hb] at this
      simpa using this
    · have hne : (bio 0).bytes.isEmpty = false := by
        cases hbb : (bio 0).bytes with
        | nil => exact absurd hbb hb
        | cons _ _ => rfl
      have hs : regexSearchStatus
          (acc ++ List.takeWhile (fun x => x != '\x00') (bio 0).bytes) = false := by
        have := h0.2
        simpa [accumulated] using this
      simp only [hne, Bool.false_eq_true, if_false, hs]
      rw [← List.append_assoc]
      apply ih
      intro i hi
      have hi1 := h (i + 1) (Nat.succ_lt_succ hi)
      refine ⟨hi1.1, ?_⟩
      have := hi1.2
      rw [accumulated_succ] at this
      simpa [List.append_assoc] using this

theorem readIMAPSResponse_keepsReading (bio : BioStream) (n : Nat) (h : keepsReading bio n) :
    readIMAPSResponse n bio = none := by
  have := loop_keepsReading n bio [] 0 (by simpa [keepsReading] using h)
  rw [Nat.add_zero] at this
  rw [readIMAPSResponse, this]
  rfl

theorem readIMAPSResponse_fails_after (bio : BioStream) (n : Nat) (h : keepsReading bio n)
    (hb : (bio n).bytes = []) (hr : (bio n).shouldRetry = false) :
    readIMAPSResponse (n + 1) bio = some (false, accumulated bio n) := by
  have := loop_keepsReading n bio [] 1 (by simpa [keepsReading] using h)
  rw [readIMAPSResponse, this]
  simp [readIMAPSResponseLoop, hb, hr]

/-- When the loop returns `true`, the response it returns has a match. -/
theorem loop_true_matches (fuel : Nat) (bio : BioStream) (acc r : Str)
    (h : readIMAPSResponseLoop fuel bio acc = some (true, r)) : regexSearchStatus r = true := by
  induction fuel generalizing bio acc with
  | zero => simp [readIMAPSResponseLoop] at h
  | succ f ih =>
    rw [readIMAPSResponseLoop] at h
    split at h
    · split at h
      · simp at h
      · exact ih _ _ h
    · dsimp only at h
      split at h
      · rename_i hs
        simp only [Option.some.injEq, Prod.mk.injEq, true_and] at h
        rw [← h]
        exact hs
      · exact ih _ _ h

/-- A response delivered in non-empty pieces is returned when its last piece
arrives, as long as no shorter text already matched. -/
theorem loop_deliver (chunks : List Str) (after : BioStream) (acc T : Str) (fuel : Nat)
    (hne : chunks ≠ [])
    (hT : acc ++ chunks.flatten = T)
    (hchunks : ∀ c ∈ chunks, c ≠ [] ∧ ∀ x ∈ c, x ≠ '\x00')
    (hmatch : regexSearchStatus T = true)
    (hpre : ∀ k < T.length, regexSearchStatus (T.take k) = false)
    (hfuel : chunks.length ≤ fuel) :
    readIMAPSResponseLoop fuel (deliver chunks after) acc = some (true, T) := by
  induction chunks generalizing acc fuel with
  | nil => exact absurd rfl hne
  | cons c cs ih =>
    cases fuel with
    | zero => simp at hfuel
    | succ f =>
      obtain ⟨hc, hnul⟩ := hchunks c (List.mem_cons_self _ _)
      have hcs : ∀ d ∈ cs, d ≠ [] ∧ ∀ x ∈ d, x ≠ '\x00' :=
        fun d hd => hchunks d (List.mem_cons_of_mem _ hd)
      have hemp : c.isEmpty = false := by
        cases c with
        | nil => exact absurd rfl hc
        | cons _ _ => rfl
      have h0 : deliver (c :: cs) after 0 = { bytes := c, shouldRetry := false } := rfl
      have hsh : (fun n => deliver (c :: cs) after (n + 1)) = deliver cs after := rfl
      rw [readIMAPSResponseLoop, h0, hsh]
      simp only [hemp, Bool.false_eq_true, if_false, takeWhile_no_nul c hnul]
      have hT2 : (acc ++ c) ++ cs.flatten = T := by
        rw [← hT]; simp
      by_cases hnil : cs = []
      · subst hnil
        have : acc ++ c = T := by simpa using hT2
        rw [this, hmatch]
        rfl
      · have hlen : 0 < cs.flatten.length := by
          obtain ⟨d, ds, rfl⟩ := List.exists_cons_of_ne_nil hnil
          have hd := (hcs d (List.mem_cons_self _ _)).1
          have : 0 < d.length := List.length_pos.2 hd
          simp only [List.flatten_cons, List.length_append]
          omega
        have htake : T.take (acc ++ c).length = acc ++ c := by
          rw [← hT2]; exact List.take_left' rfl
        have hlt : (acc ++ c).length < T.length := by
          rw [← hT2]; simp only [List.length_append]; omega
        have hno := hpre _ hlt
        rw [htake] at hno
        rw [hno]
        simp only [Bool.false_eq_true, if_false]
        exact ih (acc ++ c) f hnil hT2 hcs (by simpa using hfuel)

theorem loop_retry_forever (fuel : Nat) (acc : Str) :
    readIMAPSResponseLoop fuel (fun _ => { bytes := [], shouldRetry := true }) acc = none := by
  induction fuel with
  | zero => rfl
  | succ f ih =>
    rw [readIMAPSResponseLoop]
    simpa using ih

/-! ## Claims on `checkValidity` -/

/-- C1 (set-difference rule): when the state file exists and records flag `h`,
epoch `e` and identifiers `P` (the text `updateStateFile` writes for them, all
values being C++ `int`s), `checkValidity` called with the same epoch and flag
returns exactly the elements of the server list `S` that do not occur in `P`,
in the order and multiplicity in which they occur in `S`. -/
theorem checkValidity_set_difference (S P : List Int) (e : Int) (h : Bool)
    (he : inIntRange e) (hP : ∀ u ∈ P, inIntRange u) (indeterminate : Int) :
    checkValidity (some (updateStateFile e P h)) indeterminate e S h
      = some (S.filter (fun uid => decide (uid ∉ P))) := by
  rw [checkValidity_written e P h he hP, ← filter_not_contains]
  simp

/-- C1 at the input of the specification: stored `[1,2,3]`, server
`[2,3,4,5]`, same epoch and flag, gives `[4,5]`. -/
theorem checkValidity_set_difference_witness :
    inIntRange 7 ∧ (∀ u ∈ [1, 2, 3], inIntRange u) ∧
    checkValidity (some (updateStateFile 7 [1, 2, 3] true)) 0 7 [2, 3, 4, 5] true
      = some [4, 5] :=
  ⟨by decide, by decide,
    (checkValidity_set_difference [2, 3, 4, 5] [1, 2, 3] 7 true (by decide) (by decide) 0).trans
      (by decide)⟩

/-- C2 (epoch invalidation): for a state file recording epoch `E1`, with any
flag `h0` and any stored identifiers `P`, and a current epoch `E2` different
from `E1`, `checkValidity` returns the whole server list `S` unchanged, whatever
`S` and `P` have in common and whatever the current flag is. -/
theorem checkValidity_epoch_change (S P : List Int) (E1 E2 : Int) (h0 hcur : Bool)
    (hE1 : inIntRange E1) (hP : ∀ u ∈ P, inIntRange u) (hne : E2 ≠ E1) (indeterminate : Int) :
    checkValidity (some (updateStateFile E1 P h0)) indeterminate E2 S hcur = some S := by
  rw [checkValidity_written E1 P h0 hE1 hP]
  have : ¬ E1 = E2 := fun h => hne h.symm
  simp [this]

/-- C2 at a concrete input: stored epoch 7, current epoch 8, identical
identifier lists. -/
theorem checkValidity_epoch_change_witness :
    inIntRange 7 ∧ (∀ u ∈ [1, 2, 3], inIntRange u) ∧ (8 : Int) ≠ 7 ∧
    checkValidity (some (updateStateFile 7 [1, 2, 3] true)) 0 8 [1, 2, 3] true
      = some [1, 2, 3] :=
  ⟨by decide, by decide, by decide,
    checkValidity_epoch_change [1, 2, 3] [1, 2, 3] 7 8 true true (by decide) (by decide)
      (by decide) 0⟩

/-- C3 (mode-switch invalidation): for a state file whose `HeadersOnly:` line
records the opposite of the current flag `h`, `checkValidity` returns the whole
server list `S`, for every stored epoch `e`, current epoch `cur` and stored
identifiers `P`; in particular when `cur = e` and `P = S`. -/
theorem checkValidity_mode_switch (S P : List Int) (e cur : Int) (h : Bool)
    (indeterminate : Int) :
    checkValidity (some (updateStateFile e P (!h))) indeterminate cur S h = some S := by
  unfold checkValidity
  simp only [updateStateFile_lines, loop_flagLine]
  cases h <;> rfl

/-- C4 (first run): when no state file exists, `checkValidity` returns the
entire server list unchanged, for every list, epoch and flag; the result is a
normal return (`some`), not an exception. -/
theorem checkValidity_first_run (S : List Int) (cur : Int) (h : Bool) (indeterminate : Int) :
    checkValidity none indeterminate cur S h = some S := rfl

/-- C5 (idempotent resync): after `updateStateFile` has written the record
for flag `h`, epoch `e` and a non-empty server list `S`, `checkValidity` with
the same `e`, `S` and `h` returns the empty list; the record reads back as
`(h, e, S)`: for every other query `(cur, S2, h2)` the answer is the one rules
2 to 4 give for that stored flag, epoch and identifier list; and a second run
of `main` on the state file a first run left, with the same server state,
has nothing to download and leaves the file as it is. -/
theorem checkValidity_after_update (S : List Int) (e : Int) (h : Bool) (hS : S ≠ [])
    (he : inIntRange e) (hr : ∀ u ∈ S, inIntRange u) (indeterminate : Int) :
    checkValidity (some (updateStateFile e S h)) indeterminate e S h = some [] ∧
    (∀ (cur : Int) (S2 : List Int) (h2 : Bool),
      checkValidity (some (updateStateFile e S h)) indeterminate cur S2 h2
        = some (if h = h2 ∧ e = cur then S2.filter (fun uid => decide (uid ∉ S)) else S2)) ∧
    (∀ (setOrder : List Int → List Int) (before : Option Str) (run1 : SyncRun),
      mainSync setOrder before indeterminate e S h = some run1 →
      mainSync setOrder run1.atEnd indeterminate e S h
        = some { uidsToDownload := [], afterCreateDir := run1.atEnd, atEnd := run1.atEnd }) := by
  have hcv : checkValidity (some (updateStateFile e S h)) indeterminate e S h = some [] := by
    rw [checkValidity_written e S h he hr]
    simp
  have hemp : S.isEmpty = false := by
    cases S with
    | nil => exact absurd rfl hS
    | cons _ _ => rfl
  refine ⟨hcv, ?_, ?_⟩
  · intro cur S2 h2
    rw [checkValidity_written e S h he hr, ← filter_not_contains]
    by_cases h1 : h = h2 <;> by_cases h3 : e = cur <;> simp [h1, h3]
  · intro setOrder before run1 hrun
    have hend : run1.atEnd = some (updateStateFile e S h) := by
      simp only [mainSync, hemp, Bool.false_eq_true, if_false] at hrun
      split at hrun
      · simp at hrun
      · simp only [Option.some.injEq] at hrun
        rw [← hrun]
    rw [hend]
    simp only [mainSync, hemp, Bool.false_eq_true, if_false, hcv, List.isEmpty_nil, if_true]

/-- C5 at a concrete input: the record written for `[4, 9, 12]` at epoch 7
in headers-only mode. -/
theorem checkValidity_after_update_witness :
    checkValidity (some (updateStateFile 7 [4, 9, 12] true)) 0 7 [4, 9, 12] true = some [] :=
  (checkValidity_after_update [4, 9, 12] 7 true (by decide) (by decide) (by decide) 0).1

/-! ## Claims on the state file across a run -/

/-- C6 (the recorded identifier set within an epoch), evaluated where it
fails: the state file records `[1, 2, 3]` at epoch 7, the server now reports
`[2, 3, 4]` at the same epoch and in the same mode.  `checkValidity` asks for
`[4]`, `createDir` merges it with the three recorded identifiers, but the run
ends with `updateStateFile` writing the server list alone, in whatever order
the merged set was written: identifier `1`, recorded before the run, is no
longer recorded after it. -/
theorem mainSync_drops_recorded_uid (setOrder : List Int → List Int) :
    createDirStoredUIDs (getlines (updateStateFile 7 [1, 2, 3] false)) = [1, 2, 3] ∧
    mainSync setOrder (some (updateStateFile 7 [1, 2, 3] false)) 0 7 [2, 3, 4] false
      = some { uidsToDownload := [4],
               afterCreateDir := some (createDir setOrder
                 (some (updateStateFile 7 [1, 2, 3] false)) 7 [4] false),
               atEnd := some (updateStateFile 7 [2, 3, 4] false) } ∧
    createDir id (some (updateStateFile 7 [1, 2, 3] false)) 7 [4] false
      = updateStateFile 7 [4, 1, 2, 3] false ∧
    createDirStoredUIDs (getlines (updateStateFile 7 [2, 3, 4] false)) = [2, 3, 4] ∧
    (1 : Int) ∉ createDirStoredUIDs (getlines (updateStateFile 7 [2, 3, 4] false)) := by
  have hcv : checkValidity (some (updateStateFile 7 [1, 2, 3] false)) 0 7 [2, 3, 4] false
      = some [4] := by decide
  refine ⟨by decide, ?_, by decide, by decide, by decide⟩
  simp only [mainSync, hcv]
  rfl

/-! ## Claims on response accumulation -/

/-- C7 (accumulation does not depend on how the transport splits the bytes):
let `T` be a response without NUL bytes that ends with a tagged status line
`tag SP (OK|NO|BAD) SP text CRLF` preceded by other text and a CRLF, and of
which no proper prefix already contains a match of the completion pattern.
For every way of delivering `T` as a sequence of non-empty reads of at most
4095 bytes each, whatever the transport does afterwards, `readIMAPSResponse`
returns `true` with `response` equal to `T`, after as many reads as there are
pieces. -/
theorem readIMAPSResponse_split_independent (pre tag w text T : Str) (chunks : List Str)
    (after : BioStream) (fuel : Nat)
    (hT : T = pre ++ ("\r\n".toList ++ (tag ++ ' ' :: (w ++ ' ' :: (text ++ "\r\n".toList)))))
    (htag : tag ≠ []) (halnum : ∀ c ∈ tag, isalnum c = true)
    (hw : w = "OK".toList ∨ w = "NO".toList ∨ w = "BAD".toList)
    (htext : ∀ c ∈ text, c ≠ '\r' ∧ c ≠ '\n')
    (hnul : ∀ c ∈ T, c ≠ '\x00')
    (hpre : ∀ k < T.length, regexSearchStatus (T.take k) = false)
    (hsplit : chunks.flatten = T)
    (hchunks : ∀ c ∈ chunks, c ≠ [] ∧ c.length ≤ 4095)
    (hfuel : chunks.length ≤ fuel) :
    readIMAPSResponse fuel (deliver chunks after) = some (true, T) := by
  have hmatch : regexSearchStatus T = true := by
    rw [regexSearchStatus_iff]
    refine ⟨pre, "\r\n".toList ++ (tag ++ ' ' :: (w ++ ' ' :: (text ++ "\r\n".toList))), [],
      by rw [hT]; simp, tag, w, text, ' ', ' ', rfl, htag, halnum, by decide, hw, by decide, htext⟩
  have hne : chunks ≠ [] := by
    intro hnil
    rw [hnil] at hsplit
    rw [← hsplit] at hT
    have := congrArg List.length hT
    simp at this
    omega
  apply loop_deliver chunks after [] T fuel hne (by simpa using hsplit) _ hmatch hpre hfuel
  intro c hc
  refine ⟨(hchunks c hc).1, fun x hx => hnul x ?_⟩
  rw [← hsplit]
  exact List.mem_flatten.2 ⟨c, hc, hx⟩

/-- C7 at a three-way split of a SEARCH response, cut inside the identifier
list and inside the status word. -/
theorem readIMAPSResponse_split_independent_witness :
    readIMAPSResponse 3
      (deliver ["* SEARCH 1".toList, " 2\r\na003 O".toList, "K done\r\n".toList]
        (fun _ => { bytes := [], shouldRetry := false }))
      = some (true, "* SEARCH 1 2\r\na003 OK done\r\n".toList) :=
  readIMAPSResponse_split_independent "* SEARCH 1 2".toList "a003".toList "OK".toList
    "done".toList "* SEARCH 1 2\r\na003 OK done\r\n".toList
    ["* SEARCH 1".toList, " 2\r\na003 O".toList, "K done\r\n".toList]
    (fun _ => { bytes := [], shouldRetry := false }) 3
    (by decide) (by decide) (by decide) (by decide) (by decide) (by decide) (by decide)
    (by decide) (by decide) (by decide)

/-- C8 as stated fails: `readIMAPSResponse` takes no tag.  A FETCH payload
whose line reads `Looks OK to me`, and a response whose status line carries
the tag `zzz9`, are both reported complete although no line of them begins
with the tag `a001` of the command that was sent. -/
theorem readIMAPSResponse_completes_without_tag :
    (readIMAPSResponse 1
        (fun _ => { bytes := "* 1 FETCH (BODY[1] {16}\r\nLooks OK to me\r\n".toList,
                    shouldRetry := false })
      = some (true, "* 1 FETCH (BODY[1] {16}\r\nLooks OK to me\r\n".toList) ∧
     someLineBeginsWith "a001".toList
        "* 1 FETCH (BODY[1] {16}\r\nLooks OK to me\r\n".toList = false) ∧
    (readIMAPSResponse 1
        (fun _ => { bytes := "* 3 EXISTS\r\nzzz9 OK done\r\n".toList, shouldRetry := false })
      = some (true, "* 3 EXISTS\r\nzzz9 OK done\r\n".toList) ∧
     someLineBeginsWith "a001".toList "* 3 EXISTS\r\nzzz9 OK done\r\n".toList = false) := by
  decide

/-- C8 as amended: `readIMAPSResponse` reports completion only when the
accumulated text contains a CRLF followed by a non-empty alphanumeric token
(any token, not only the tag of the command that was sent), one white-space
character, `OK`, `NO` or `BAD`, one white-space character, text without CR or
LF, and a CRLF; for every accumulated text without such a line it does not
report completion. -/
theorem readIMAPSResponse_true_only_on_status_line (fuel : Nat) (bio : BioStream) (r : Str)
    (h : readIMAPSResponse fuel bio = some (true, r)) : HasStatusLine r :=
  (regexSearchStatus_iff r).1 (loop_true_matches fuel bio [] r h)

/-- C8 as amended, at a response completed by the status line of tag `a001`. -/
theorem readIMAPSResponse_true_only_on_status_line_witness :
    HasStatusLine "* 3 EXISTS\r\na001 NO denied\r\n".toList :=
  readIMAPSResponse_true_only_on_status_line 1
    (fun _ => { bytes := "* 3 EXISTS\r\na001 NO denied\r\n".toList, shouldRetry := false })
    "* 3 EXISTS\r\na001 NO denied\r\n".toList (by decide)

/-- C9 evaluated where it fails: the SEARCH response `* SEARCH 1 2 3`, CRLF,
`a003 OK done`, CRLF gives `[1, 2, 3]` when it arrives in one `recv`, and
`[1, 2]` when it arrives as `* SEARCH 1 2` followed by the rest: the plain
`searchMessages` parses its first `recv` only. -/
theorem searchMessages_first_recv_only :
    "* SEARCH 1 2".toList ++ " 3\r\na003 OK done\r\n".toList
      = "* SEARCH 1 2 3\r\na003 OK done\r\n".toList ∧
    searchMessages true (sockOf ["* SEARCH 1 2 3\r\na003 OK done\r\n".toList]) = [1, 2, 3] ∧
    searchMessages true (sockOf ["* SEARCH 1 2".toList, " 3\r\na003 OK done\r\n".toList])
      = [1, 2] := by
  decide

/-- C10 as stated fails: on a transport whose every read is a retryable
non-positive result, `readIMAPSResponse` has not returned after `N` read
attempts, for every `N`; no bound exists. -/
theorem readIMAPSResponse_no_bound :
    ¬ ∃ N : Nat, ∃ result : Bool × Str,
      readIMAPSResponse N (fun _ => { bytes := [], shouldRetry := true }) = some result := by
  rintro ⟨N, result, h⟩
  rw [readIMAPSResponse, loop_retry_forever] at h
  exact Option.noConfusion h

/-- C10 as amended: the loop has no bound of its own.  As long as every read
returns data that does not complete a terminator or a retryable non-positive
result (`keepsReading bio N`), `readIMAPSResponse` has not returned after `N`
read attempts, for every `N`; it returns a failure when a read returns a
non-positive result that is not retryable, at that very read: after `N + 1`
attempts when read `N + 1` is the first such read, with the response
accumulated so far. -/
theorem readIMAPSResponse_fails_at_terminal_read (bio : BioStream) (N : Nat)
    (h : keepsReading bio N) :
    readIMAPSResponse N bio = none ∧
    ((bio N).bytes = [] → (bio N).shouldRetry = false →
      readIMAPSResponse (N + 1) bio = some (false, accumulated bio N)) :=
  ⟨readIMAPSResponse_keepsReading bio N h, readIMAPSResponse_fails_after bio N h⟩

/-- C10 as amended, on a transport that returns a piece of data, then a
retryable result, then a terminal failure: no result after two reads, failure
at the third. -/
theorem readIMAPSResponse_fails_at_terminal_read_witness :
    readIMAPSResponse 2
      (fun n => if n = 0 then { bytes := "* 1 EXISTS\r\n".toList, shouldRetry := false }
                else { bytes := [], shouldRetry := decide (n < 2) }) = none ∧
    readIMAPSResponse 3
      (fun n => if n = 0 then { bytes := "* 1 EXISTS\r\n".toList, shouldRetry := false }
                else { bytes := [], shouldRetry := decide (n < 2) })
      = some (false, "* 1 EXISTS\r\n".toList) :=
  have h := readIMAPSResponse_fails_at_terminal_read
    (fun n => if n = 0 then { bytes := "* 1 EXISTS\r\n".toList, shouldRetry := false }
              else { bytes := [], shouldRetry := decide (n < 2) }) 2 (by decide)
  ⟨h.1, h.2 (by decide) (by decide)⟩

/-! ## Occurrences of a text, and the greeting test -/

theorem find_isSome_iff_occurs (pat s : Str) : (find pat s).isSome = true ↔ pat <:+: s := by
  induction s with
  | nil =>
    cases pat with
    | nil => simp [find]
    | cons x xs => simp [find]
  | cons c cs ih =>
    rw [List.infix_cons_iff, ← ih, find]
    by_cases hp : pat.isPrefixOf (c :: cs) = true
    · simp [hp, List.isPrefixOf_iff_prefix.1 hp]
    · have hnp : ¬ pat <+: c :: cs := fun h => hp (List.isPrefixOf_iff_prefix.2 h)
      simp [hp, hnp]

theorem find_none_of_initial (pat s t : Str) (ht : t <+: s) (h : find pat s = none) :
    find pat t = none := by
  by_contra hne
  have hsome : (find pat t).isSome = true := by
    cases hf : find pat t with
    | none => exact absurd hf hne
    | some _ => rfl
  have hin : pat <:+: s := ((find_isSome_iff_occurs pat t).1 hsome).trans ht.isInfix
  have := (find_isSome_iff_occurs pat s).2 hin
  rw [h] at this
  exact Bool.false_ne_true this

theorem strstr_false_of_find_none (bytes pat : Str) (h : find pat bytes = none) :
    strstr bytes pat = false := by
  unfold strstr
  rw [find_none_of_initial pat bytes _ (List.takeWhile_prefix _) h]
  rfl

/-! ## The sequence of tags -/

theorem generateTags_getElem (n : Nat) (c : Int) (k : Nat) (hk : k < n) :
    (generateTags c n)[k]? = some (generateTag (c + k)).1 := by
  induction n generalizing c k with
  | zero => omega
  | succ n ih =>
    cases k with
    | zero => simp [generateTags]
    | succ k =>
      rw [generateTags, List.getElem?_cons_succ, ih _ k (by omega)]
      have : (generateTag c).2 + (k : Int) = c + ((k + 1 : Nat) : Int) := by
        simp only [generateTag]; push_cast; ring
      rw [this]

theorem printInt_natCast (k : Nat) : printInt (k : Int) = Nat.toDigits 10 k := by
  unfold printInt
  have : ¬ ((k : Int) < 0) := by omega
  simp [this]

theorem decValue_zeros (m : Nat) (ds : Str) :
    decValue (List.replicate m '0' ++ ds) 0 = decValue ds 0 := by
  induction m with
  | zero => rfl
  | succ m ih =>
    rw [List.replicate_succ, List.cons_append]
    unfold decValue at ih ⊢
    rw [List.foldl_cons]
    exact ih

theorem setw3fill0_isdigit (ds : Str) (h : ∀ c ∈ ds, isdigit c = true) :
    ∀ c ∈ setw3fill0 ds, isdigit c = true := by
  intro c hc
  rcases List.mem_append.1 hc with hc | hc
  · rw [(List.mem_replicate.1 hc).2]; decide
  · exact h c hc

/-- The tag made from the counter value `k`: the letter `a` and a digit
string whose decimal value is `k`. -/
theorem generateTag_natCast (k : Nat) :
    (generateTag (k : Int)).1 = 'a' :: setw3fill0 (Nat.toDigits 10 k) ∧
    (∀ c ∈ setw3fill0 (Nat.toDigits 10 k), isdigit c = true) ∧
    decValue (setw3fill0 (Nat.toDigits 10 k)) 0 = k := by
  refine ⟨by simp [generateTag, printInt_natCast], setw3fill0_isdigit _ (toDigits_isdigit k), ?_⟩
  unfold setw3fill0
  rw [decValue_zeros, toDigits_value]

/-- The `k`-th of the tags generated from the initial counter value 1. -/
theorem generateTags_from_one (n k : Nat) (h1 : 1 ≤ k) (hk : k ≤ n) :
    (generateTags 1 n)[k - 1]? = some ('a' :: setw3fill0 (Nat.toDigits 10 k)) := by
  rw [generateTags_getElem n 1 (k - 1) (by omega)]
  have : (1 : Int) + ((k - 1 : Nat) : Int) = (k : Int) := by omega
  rw [this, (generateTag_natCast k).1]

/-! ## The width of a printed number -/

theorem toDigitsCore_fuel (f g n : Nat) (ds : Str) (hf : n < f) (hg : n < g) :
    Nat.toDigitsCore 10 f n ds = Nat.toDigitsCore 10 g n ds := by
  induction f generalizing g n ds with
  | zero => omega
  | succ f ih =>
    cases g with
    | zero => omega
    | succ g =>
      simp only [Nat.toDigitsCore]
      split
      · rfl
      · exact ih g (n / 10) _ (by omega) (by omega)

theorem toDigits_small (n : Nat) (h : n < 10) : Nat.toDigits 10 n = [Nat.digitChar n] := by
  have h0 : n / 10 = 0 := by omega
  have h1 : n % 10 = n := by omega
  simp [Nat.toDigits, Nat.toDigitsCore, h0, h1]

theorem toDigits_step (n : Nat) (h : 10 ≤ n) :
    Nat.toDigits 10 n = Nat.toDigits 10 (n / 10) ++ [Nat.digitChar (n % 10)] := by
  have h0 : ¬ n / 10 = 0 := by omega
  unfold Nat.toDigits
  rw [Nat.toDigitsCore]
  simp only [h0, if_false]
  rw [toDigitsCore_append, toDigitsCore_fuel n (n / 10 + 1) (n / 10) [] (by omega) (by omega)]

theorem toDigits_length_le_three (n : Nat) (h : n < 1000) : (Nat.toDigits 10 n).length ≤ 3 := by
  by_cases h1 : n < 10
  · simp [toDigits_small n h1]
  · rw [toDigits_step n (by omega)]
    by_cases h2 : n / 10 < 10
    · simp [toDigits_small _ h2]
    · rw [toDigits_step (n / 10) (by omega), toDigits_small (n / 10 / 10) (by omega)]
      simp

theorem toDigits_length_ge_four (n : Nat) (h : 1000 ≤ n) : 4 ≤ (Nat.toDigits 10 n).length := by
  have hne := toDigits_ne_nil (n / 10 / 10 / 10)
  have hpos : 0 < (Nat.toDigits 10 (n / 10 / 10 / 10)).length := List.length_pos.2 hne
  rw [toDigits_step n (by omega), toDigits_step (n / 10) (by omega),
    toDigits_step (n / 10 / 10) (by omega)]
  simp only [List.length_append, List.length_singleton]
  omega

/-! ## The epoch pattern, position by position -/

theorem matchUidValidityAt_none_iff (t : Str) :
    matchUidValidityAt t = none ↔
      ¬ ∃ (d : Char) (rest : Str), t = "UIDVALIDITY ".toList ++ d :: rest ∧ isdigit d = true := by
  unfold matchUidValidityAt
  constructor
  · intro h
    rintro ⟨d, rest, rfl, hd⟩
    rw [stripPrefix_append] at h
    simp [List.takeWhile_cons, hd] at h
  · intro h
    split
    · rfl
    · rename_i u hu
      have ht := stripPrefix_some _ t u hu
      cases u with
      | nil => simp
      | cons d rest =>
        by_cases hd : isdigit d = true
        · exact absurd ⟨d, rest, ht, hd⟩ h
        · simp [List.takeWhile_cons, hd]

theorem matchUidValidityAt_run (ds rest : Str) (hne : ds ≠ [])
    (hds : ∀ c ∈ ds, isdigit c = true) (hrest : ∀ c ∈ rest.head?, isdigit c = false) :
    matchUidValidityAt ("UIDVALIDITY ".toList ++ (ds ++ rest)) = some ds := by
  have htake : (ds ++ rest).takeWhile isdigit = ds := by
    cases rest with
    | nil => simpa [List.takeWhile_eq_self_iff] using hds
    | cons x xs => exact takeWhile_append_stop isdigit ds x xs hds (hrest x (by simp))
  have hemp : ds.isEmpty = false := by
    cases ds with
    | nil => exact absurd rfl hne
    | cons _ _ => rfl
  unfold matchUidValidityAt
  rw [stripPrefix_append]
  simp only [htake, hemp, Bool.false_eq_true, if_false]

theorem matchUidValidityAt_some (t ds : Str) (h : matchUidValidityAt t = some ds) :
    ds ≠ [] ∧ ∀ c ∈ ds, isdigit c = true := by
  unfold matchUidValidityAt at h
  split at h
  · simp at h
  · rename_i u _
    split at h
    · simp at h
    · rename_i hemp
      simp only [Option.some.injEq] at h
      subst h
      refine ⟨?_, fun c hc => List.mem_takeWhile_imp hc⟩
      intro hnil
      rw [hnil] at hemp
      exact hemp rfl

theorem epochAt_zero_iff (s : Str) :
    EpochAt s 0 ↔
      ∃ (d : Char) (rest : Str), s = "UIDVALIDITY ".toList ++ d :: rest ∧ isdigit d = true :=
  Iff.rfl

theorem epochAt_succ_iff (c : Char) (cs : Str) (i : Nat) :
    EpochAt (c :: cs) (i + 1) ↔ EpochAt cs i := Iff.rfl

theorem regexSearchUidValidity_none_iff (s : Str) :
    regexSearchUidValidity s = none ↔ ∀ i, ¬ EpochAt s i := by
  induction s with
  | nil =>
    simp only [regexSearchUidValidity, true_iff]
    rintro i ⟨d, rest, h, _⟩
    simp at h
  | cons c cs ih =>
    rw [regexSearchUidValidity]
    constructor
    · intro h i
      cases hm : matchUidValidityAt (c :: cs) with
      | some ds => rw [hm] at h; simp at h
      | none =>
        rw [hm] at h
        cases i with
        | zero => exact (matchUidValidityAt_none_iff _).1 hm
        | succ i => exact (ih.1 h) i
    · intro h
      have h0 : matchUidValidityAt (c :: cs) = none := (matchUidValidityAt_none_iff _).2 (h 0)
      rw [h0]
      exact ih.2 (fun i => h (i + 1))

theorem regexSearchUidValidity_leftmost (s : Str) (i : Nat) (ds : Str)
    (hbefore : ∀ j < i, ¬ EpochAt s j) (hat : matchUidValidityAt (s.drop i) = some ds) :
    regexSearchUidValidity s = some ds := by
  induction s generalizing i with
  | nil =>
    simp only [List.drop_nil] at hat
    have : matchUidValidityAt [] = none := by decide
    rw [this] at hat
    exact Option.noConfusion hat
  | cons c cs ih =>
    rw [regexSearchUidValidity]
    cases i with
    | zero =>
      rw [List.drop_zero] at hat
      rw [hat]
    | succ i =>
      have h0 : matchUidValidityAt (c :: cs) = none :=
        (matchUidValidityAt_none_iff _).2 (hbefore 0 (Nat.succ_pos i))
      rw [h0]
      exact ih i (fun j hj => hbefore (j + 1) (Nat.succ_lt_succ hj)) hat

theorem regexSearchUidValidity_some (s ds : Str) (h : regexSearchUidValidity s = some ds) :
    ds ≠ [] ∧ ∀ c ∈ ds, isdigit c = true := by
  induction s with
  | nil => simp [regexSearchUidValidity] at h
  | cons c cs ih =>
    rw [regexSearchUidValidity] at h
    cases hm : matchUidValidityAt (c :: cs) with
    | some d =>
      rw [hm] at h
      simp only [Option.some.injEq] at h
      subst h
      exact matchUidValidityAt_some _ _ hm
    | none =>
      rw [hm] at h
      exact ih h

theorem scanInt_digits (ds : Str) (hne : ds ≠ []) (hds : ∀ c ∈ ds, isdigit c = true) :
    scanInt ds = some (((decValue ds 0 : Nat) : Int), []) := by
  obtain ⟨c, cs, rfl⟩ := List.exists_cons_of_ne_nil hne
  have hc : isdigit c = true := hds c (List.mem_cons_self _ _)
  have hsp : isspace c = false := isdigit_not_isspace c hc
  have hsc : scanDigits (c :: cs) 0 = (decValue (c :: cs) 0, []) := by
    have := scanDigits_append (c :: cs) [] 0 hds
    rw [List.append_nil] at this
    rw [this]
    rfl
  unfold scanInt
  simp only [List.dropWhile, hsp, scanSign_digit c cs hc, hc, hsc, if_true]
  simp

theorem stoi_digits (ds : Str) (hne : ds ≠ []) (hds : ∀ c ∈ ds, isdigit c = true) :
    (inIntRange (decValue ds 0 : Nat) → stoi ds = some ((decValue ds 0 : Nat) : Int)) ∧
    (∀ v, stoi ds = some v → 0 ≤ v) := by
  unfold stoi
  rw [scanInt_digits ds hne hds]
  constructor
  · intro h
    simp [h]
  · intro v hv
    simp only at hv
    split at hv
    · simp only [Option.some.injEq] at hv
      rw [← hv]
      exact Int.natCast_nonneg _
    · simp at hv

/-- What `parseSelectResponse` returns, in terms of the occurrences of the
keyword followed by a digit. -/
theorem parseSelectResponse_spec (response : Str) :
    (∀ (i : Nat) (ds rest : Str),
      response.drop i = "UIDVALIDITY ".toList ++ (ds ++ rest) → ds ≠ [] →
      (∀ c ∈ ds, isdigit c = true) → (∀ c ∈ rest.head?, isdigit c = false) →
      (∀ j < i, ¬ EpochAt response j) → inIntRange (decValue ds 0 : Nat) →
      parseSelectResponse response = some ((decValue ds 0 : Nat) : Int)) ∧
    ((∀ j, ¬ EpochAt response j) → parseSelectResponse response = some (-1)) ∧
    (parseSelectResponse response = some (-1) → ∀ j, ¬ EpochAt response j) := by
  refine ⟨?_, ?_, ?_⟩
  · intro i ds rest hdrop hne hds hrest hbefore hrange
    have hat : matchUidValidityAt (response.drop i) = some ds := by
      rw [hdrop]
      exact matchUidValidityAt_run ds rest hne hds hrest
    unfold parseSelectResponse
    rw [regexSearchUidValidity_leftmost response i ds hbefore hat]
    exact (stoi_digits ds hne hds).1 hrange
  · intro hnone
    unfold parseSelectResponse
    rw [(regexSearchUidValidity_none_iff response).2 hnone]
    simp
  · intro h
    cases hs : regexSearchUidValidity response with
    | none => exact (regexSearchUidValidity_none_iff response).1 hs
    | some ds =>
      obtain ⟨hne, hds⟩ := regexSearchUidValidity_some response ds hs
      unfold parseSelectResponse at h
      rw [hs] at h
      have := (stoi_digits ds hne hds).2 (-1) h
      omega

/-! ## The identifier list of a SEARCH response -/

theorem searchLine_cons (n : Int) (ns : List Int) :
    searchLine (n :: ns) = ' ' :: (printInt n ++ searchLine ns) := by
  simp [searchLine]

theorem searchLine_chars (ns : List Int) :
    ∀ c ∈ searchLine ns, c = ' ' ∨ c = '-' ∨ isdigit c = true := by
  intro c hc
  simp only [searchLine, List.mem_flatten, List.mem_map] at hc
  obtain ⟨l, ⟨u, _, rfl⟩, hcl⟩ := hc
  rcases List.mem_cons.1 hcl with h | h
  · exact Or.inl h
  · exact Or.inr (printInt_chars u c h)

theorem not_mem_searchLine (c : Char) (ns : List Int) (h0 : c ≠ ' ') (h1 : c ≠ '-')
    (h2 : isdigit c = false) : c ∉ searchLine ns := by
  intro hc
  rcases searchLine_chars ns c hc with h | h | h
  · exact h0 h
  · exact h1 h
  · rw [h2] at h; exact Bool.false_ne_true h

theorem searchLine_head (ns : List Int) : ∀ c ∈ (searchLine ns).head?, isdigit c = false := by
  intro c hc
  cases ns with
  | nil => simp [searchLine] at hc
  | cons n ns =>
    rw [searchLine_cons] at hc
    simp only [List.head?_cons, Option.mem_def, Option.some.injEq] at hc
    rw [← hc]
    decide

theorem extractInt_nil : extractInt [] = none := by decide

theorem readIntsAux_searchLine (ns : List Int) (h : ∀ n ∈ ns, inIntRange n) (fuel : Nat)
    (hf : (searchLine ns).length ≤ fuel) :
    readIntsAux fuel (searchLine ns) = ns := by
  induction ns generalizing fuel with
  | nil =>
    cases fuel with
    | zero => rfl
    | succ f => simp [readIntsAux, searchLine, extractInt_nil]
  | cons n ns ih =>
    rw [searchLine_cons] at hf ⊢
    cases fuel with
    | zero => simp at hf
    | succ f =>
      have hn : inIntRange n := h n (List.mem_cons_self _ _)
      have hscan := scanInt_printInt n (searchLine ns) (searchLine_head ns)
      have hext : extractInt (' ' :: (printInt n ++ searchLine ns)) = some (n, searchLine ns) := by
        simp [extractInt, hscan, hn]
      simp only [readIntsAux, hext]
      rw [ih (fun x hx => h x (List.mem_cons_of_mem _ hx)) f]
      simp only [List.length_cons, List.length_append] at hf
      omega

theorem readInts_searchLine (ns : List Int) (h : ∀ n ∈ ns, inIntRange n) :
    readInts (searchLine ns) = ns :=
  readIntsAux_searchLine ns h _ (le_refl _)

theorem find_crlf (a b : Str) (ha : '\r' ∉ a) :
    find "\r\n".toList (a ++ '\r' :: '\n' :: b) = some a.length := by
  induction a with
  | nil => exact find_zero _ _ (by simp [List.isPrefixOf])
  | cons x xs ih =>
    have hx : ¬ '\r' = x := fun h => ha (h ▸ List.mem_cons_self _ _)
    have hxs : '\r' ∉ xs := fun h => ha (List.mem_cons_of_mem _ h)
    have hb : ("\r\n".toList).isPrefixOf (x :: (xs ++ '\r' :: '\n' :: b)) = false := by
      simp [List.isPrefixOf, hx]
    show find "\r\n".toList (x :: (xs ++ '\r' :: '\n' :: b)) = _
    rw [find, hb, ih hxs]
    simp

/-- The parse of a response that begins with `* SEARCH`, the identifier list
and a line end. -/
theorem parseSearchResponse_searchLine (ns : List Int) (h : ∀ n ∈ ns, inIntRange n)
    (more : Str) :
    parseSearchResponse ("* SEARCH".toList ++ (searchLine ns ++ '\r' :: '\n' :: more)) = ns := by
  have hfind : find "* SEARCH".toList
      ("* SEARCH".toList ++ (searchLine ns ++ '\r' :: '\n' :: more)) = some 0 :=
    find_zero _ _ (List.isPrefixOf_iff_prefix.2 (List.prefix_append _ _))
  have hdrop : ("* SEARCH".toList ++ (searchLine ns ++ '\r' :: '\n' :: more)).drop (0 + 8)
      = searchLine ns ++ '\r' :: '\n' :: more := rfl
  have hcr : '\r' ∉ searchLine ns :=
    not_mem_searchLine _ ns (by decide) (by decide) (by decide)
  have hfrom : findFrom "\r\n".toList
      ("* SEARCH".toList ++ (searchLine ns ++ '\r' :: '\n' :: more)) (0 + 8)
      = some ((searchLine ns).length + (0 + 8)) := by
    unfold findFrom
    rw [hdrop, find_crlf _ _ hcr]
    simp
  unfold parseSearchResponse
  simp only [hfind, hfrom, hdrop]
  by_cases hlen : 0 + 8 < (searchLine ns).length + (0 + 8)
  · simp only [hlen, if_true]
    have : (searchLine ns).length + (0 + 8) - (0 + 8) = (searchLine ns).length := by omega
    rw [this, List.take_left, readInts_searchLine ns h]
  · simp only [hlen, if_false]
    cases ns with
    | nil => rfl
    | cons n ns =>
      rw [searchLine_cons] at hlen
      simp only [List.length_cons] at hlen
      omega

/-! ## Claims on the greeting, the tags and the login -/

/-- C11 (greeting gate): when the first read from the server does not
contain `OK` (or fails), `authenticate` and `authenticateBIO` return `false`,
hand nothing to `send` or `BIO_write`, and leave the tag counter unchanged,
whatever the credentials and whatever the transport would do next. -/
theorem authenticate_greeting_gate (commandCounter : Int) (username password greeting : Str)
    (sent : Bool) (reply : Option Str) (replyBytes : Str)
    (h : find "OK".toList greeting = none) :
    authenticate commandCounter username password (some greeting) sent reply
      = { result := false, commandCounter := commandCounter, written := [] } ∧
    authenticate commandCounter username password none sent reply
      = { result := false, commandCounter := commandCounter, written := [] } ∧
    authenticateBIO commandCounter username password greeting sent replyBytes
      = { result := false, commandCounter := commandCounter, written := [] } := by
  have hs : strstr greeting "OK".toList = false := strstr_false_of_find_none _ _ h
  refine ⟨?_, rfl, ?_⟩
  · simp only [authenticate, hs, Bool.not_false, if_true]
  · unfold authenticateBIO
    split
    · rfl
    · simp only [hs, Bool.not_false, if_true]

/-- C11 at the greeting `* BYE server shutting down`. -/
theorem authenticate_greeting_gate_witness :
    authenticate 1 "user".toList "pw".toList (some "* BYE server shutting down\r\n".toList) true
        (some "a001 OK done\r\n".toList)
      = { result := false, commandCounter := 1, written := [] } ∧
    authenticateBIO 1 "user".toList "pw".toList "* BYE server shutting down\r\n".toList true
        "a001 OK LOGIN Authentication succeeded\r\n".toList
      = { result := false, commandCounter := 1, written := [] } :=
  have h := authenticate_greeting_gate 1 "user".toList "pw".toList
    "* BYE server shutting down\r\n".toList true (some "a001 OK done\r\n".toList)
    "a001 OK LOGIN Authentication succeeded\r\n".toList (by decide)
  ⟨h.1, h.2.2⟩

/-- C12 (tag uniqueness and order): of the first `n` results of `generateTag`
from the initial counter value 1, `n` within the `int` range, the `k`-th is
the letter `a` followed by decimal digits whose value is `k`, and the `i`-th
and the `j`-th differ whenever `i < j`. -/
theorem generateTag_unique_in_order (n : Nat) (hn : (n : Int) ≤ INT_MAX) :
    (∀ k, 1 ≤ k → k ≤ n →
      ∃ t, (generateTags 1 n)[k - 1]? = some ('a' :: t) ∧ (∀ c ∈ t, isdigit c = true) ∧
        decValue t 0 = k) ∧
    (∀ i j, 1 ≤ i → i < j → j ≤ n → (generateTags 1 n)[i - 1]? ≠ (generateTags 1 n)[j - 1]?) := by
  have _ := hn
  constructor
  · intro k h1 hk
    exact ⟨_, generateTags_from_one n k h1 hk, (generateTag_natCast k).2.1,
      (generateTag_natCast k).2.2⟩
  · intro i j h1 hij hj heq
    rw [generateTags_from_one n i h1 (by omega), generateTags_from_one n j (by omega) hj] at heq
    simp only [Option.some.injEq, List.cons.injEq, true_and] at heq
    have hi := (generateTag_natCast i).2.2
    have hj2 := (generateTag_natCast j).2.2
    rw [heq] at hi
    omega

/-- C12 on the first twelve tags: the ninth and the tenth differ, and the
tenth is `a010`. -/
theorem generateTag_unique_in_order_witness :
    (generateTags 1 12)[9 - 1]? ≠ (generateTags 1 12)[10 - 1]? ∧
    (generateTags 1 12)[10 - 1]? = some "a010".toList :=
  ⟨(generateTag_unique_in_order 12 (by decide)).2 9 10 (by decide) (by decide) (by decide),
    by decide⟩

/-- C13 as stated fails: the thousandth tag is `a1000`, five characters. -/
theorem generateTag_thousandth :
    (generateTags 1 1000)[1000 - 1]? = some "a1000".toList ∧ ("a1000".toList).length = 5 := by
  refine ⟨?_, by decide⟩
  rw [generateTags_from_one 1000 1000 (by decide) (by decide)]
  decide

/-- C13 as amended: for `1 <= k <= 999` the `k`-th tag is the letter `a`
followed by exactly three decimal digits, so these tags all have length 4;
from `k = 1000` on (within the `int` range) the tag is `a` followed by the
decimal digits of `k`, without padding, and has at least five characters. -/
theorem generateTag_width (n k : Nat) (hn : (n : Int) ≤ INT_MAX) (h1 : 1 ≤ k) (hk : k ≤ n) :
    (k ≤ 999 → ∃ d1 d2 d3, (generateTags 1 n)[k - 1]? = some ['a', d1, d2, d3] ∧
      isdigit d1 = true ∧ isdigit d2 = true ∧ isdigit d3 = true) ∧
    (1000 ≤ k → (generateTags 1 n)[k - 1]? = some ('a' :: Nat.toDigits 10 k) ∧
      5 ≤ ('a' :: Nat.toDigits 10 k).length) := by
  have _ := hn
  rw [generateTags_from_one n k h1 hk]
  constructor
  · intro h999
    have hlen : (setw3fill0 (Nat.toDigits 10 k)).length = 3 := by
      have := toDigits_length_le_three k (by omega)
      simp only [setw3fill0, List.length_append, List.length_replicate]
      omega
    obtain ⟨d1, d2, d3, hd⟩ := List.length_eq_three.1 hlen
    have hdig := (generateTag_natCast k).2.1
    rw [hd] at hdig
    exact ⟨d1, d2, d3, by rw [hd], hdig d1 (by simp), hdig d2 (by simp), hdig d3 (by simp)⟩
  · intro h1000
    have hlen := toDigits_length_ge_four k h1000
    have hpad : setw3fill0 (Nat.toDigits 10 k) = Nat.toDigits 10 k := by
      have h0 : 3 - (Nat.toDigits 10 k).length = 0 := by omega
      simp [setw3fill0, h0]
    rw [hpad]
    exact ⟨rfl, by simp only [List.length_cons]; omega⟩

/-- C13 as amended, at the ninth of twelve tags: `a009`. -/
theorem generateTag_width_witness :
    ∃ d1 d2 d3, (generateTags 1 12)[9 - 1]? = some ['a', d1, d2, d3] ∧
      isdigit d1 = true ∧ isdigit d2 = true ∧ isdigit d3 = true :=
  (generateTag_width 12 9 (by decide) (by decide) (by decide)).1 (by decide)

/-- C14 evaluated where it fails: for the user name `user` and the password
`pw`, after the greeting `* OK ready`, `authenticate` hands `send` the bytes
`a001 LOGINuserpw` and a line end, without the two separating spaces, while
`authenticateBIO` writes `a001 LOGIN user pw` and a line end. -/
theorem authenticate_login_command :
    (authenticate 1 "user".toList "pw".toList (some "* OK ready\r\n".toList) true
        (some "a001 OK done\r\n".toList)).written = ["a001 LOGINuserpw\r\n".toList] ∧
    ( authenticateBIO 1 "user".toList "pw".toList "* OK ready\r\n".toList true
        "a001 OK LOGIN Authentication succeeded\r\n".toList).written
      = ["a001 LOGIN user pw\r\n".toList] := by
  decide

/-- C15 evaluated where it fails: the LOGIN reply
`a001 NO [AUTHENTICATIONFAILED] invalid TOKEN` contains the letters `OK` (in
`TOKEN`), and `authenticate` returns `true`. -/
theorem authenticate_accepts_rejected_login :
    (authenticate 1 "user".toList "pw".toList (some "* OK ready\r\n".toList) true
        (some "a001 NO [AUTHENTICATIONFAILED] invalid TOKEN\r\n".toList)).result = true := by
  decide

/-- C16 evaluated where it fails: after an accepted greeting and a successful
write, the LOGIN reply `a001 OK Logged in` makes `authenticateBIO` return
`false`; it returns `true` on `a001 OK LOGIN Authentication succeeded`. -/
theorem authenticateBIO_rejects_ok_reply :
    ( authenticateBIO 1 "user".toList "pw".toList "* OK ready\r\n".toList true
        "a001 OK Logged in\r\n".toList).result = false ∧
    ( authenticateBIO 1 "user".toList "pw".toList "* OK ready\r\n".toList true
        "a001 OK LOGIN Authentication succeeded\r\n".toList).result = true := by
  decide

/-! ## Claims on the response parsers -/

/-- C17 (identity-epoch parsing): for every SELECT response text, received in
one `recv` (plain) or returned by `readIMAPSResponse` (TLS), after a
successful write.  If `UIDVALIDITY ` followed by a digit occurs, and the
leftmost such occurrence is at index `i` with the maximal digit run `ds` after
it, whose value fits an `int`, `selectMailbox` and `selectMailboxBIO` return
that value; if there is no such occurrence they return `-1`; and they return
`-1` only if there is no such occurrence. -/
theorem selectMailbox_epoch (response : Str) :
    (∀ (i : Nat) (ds rest : Str),
      response.drop i = "UIDVALIDITY ".toList ++ (ds ++ rest) → ds ≠ [] →
      (∀ c ∈ ds, isdigit c = true) → (∀ c ∈ rest.head?, isdigit c = false) →
      (∀ j < i, ¬ EpochAt response j) → inIntRange (decValue ds 0 : Nat) →
      selectMailbox true (some response) = some ((decValue ds 0 : Nat) : Int) ∧
      selectMailboxBIO true (true, response) = some ((decValue ds 0 : Nat) : Int)) ∧
    ((∀ j, ¬ EpochAt response j) →
      selectMailbox true (some response) = some (-1) ∧
      selectMailboxBIO true (true, response) = some (-1)) ∧
    ((selectMailbox true (some response) = some (-1) ∨
      selectMailboxBIO true (true, response) = some (-1)) → ∀ j, ¬ EpochAt response j) := by
  have h1 : selectMailbox true (some response) = parseSelectResponse response := rfl
  have h2 : selectMailboxBIO true (true, response) = parseSelectResponse response := rfl
  rw [h1, h2]
  obtain ⟨ha, hb, hc⟩ := parseSelectResponse_spec response
  refine ⟨?_, ?_, ?_⟩
  · intro i ds rest hd hne hds hrest hbefore hrange
    exact ⟨ha i ds rest hd hne hds hrest hbefore hrange,
      ha i ds rest hd hne hds hrest hbefore hrange⟩
  · intro h
    exact ⟨hb h, hb h⟩
  · intro h
    rcases h with h | h <;> exact hc h

/-- C17 at a SELECT response of a server: the epoch 1234 is read from
`[UIDVALIDITY 1234]`. -/
theorem selectMailbox_epoch_witness :
    selectMailbox true
        (some "* 3 EXISTS\r\n* OK [UIDVALIDITY 1234] UIDs valid\r\na002 OK done\r\n".toList)
      = some 1234 ∧
    selectMailboxBIO true
        (true, "* 3 EXISTS\r\n* OK [UIDVALIDITY 1234] UIDs valid\r\na002 OK done\r\n".toList)
      = some 1234 :=
  (selectMailbox_epoch
      "* 3 EXISTS\r\n* OK [UIDVALIDITY 1234] UIDs valid\r\na002 OK done\r\n".toList).1
    18 "1234".toList "] UIDs valid\r\na002 OK done\r\n".toList (by decide) (by decide)
    (by decide) (by decide)
    (fun j hj => by
      interval_cases j <;> exact (matchUidValidityAt_none_iff _).1 (by decide))
    (by decide)

/-- C18 (identifier-list parsing of the plain `searchMessages`): when the
`recv` delivers `* SEARCH`, the identifiers `n1 ... nk` each preceded by one
space, a line end and any further text, the function returns exactly
`[n1, ..., nk]` (for all `int` values, the non-negative ones among them) and
nothing from the further text; for `* SEARCH` followed directly by the line
end it returns the empty list; and for every response that does not contain
`* SEARCH` it returns the empty list. -/
theorem searchMessages_identifier_list (sock : Nat → Option Str) :
    (∀ (ns : List Int) (more : Str), (∀ n ∈ ns, inIntRange n) →
      sock 0 = some ("* SEARCH".toList ++ searchLine ns ++ "\r\n".toList ++ more) →
      searchMessages true sock = ns) ∧
    (∀ more : Str, sock 0 = some ("* SEARCH".toList ++ "\r\n".toList ++ more) →
      searchMessages true sock = []) ∧
    (∀ response : Str, sock 0 = some response → find "* SEARCH".toList response = none →
      searchMessages true sock = []) := by
  have key : ∀ (ns : List Int) (more : Str), (∀ n ∈ ns, inIntRange n) →
      sock 0 = some ("* SEARCH".toList ++ searchLine ns ++ "\r\n".toList ++ more) →
      searchMessages true sock = ns := by
    intro ns more hns hsock
    have hnul : ∀ c ∈ "* SEARCH".toList ++ searchLine ns ++ "\r\n".toList,
        (fun x : Char => x != '\x00') c = true := by
      intro c hc
      have hne : c ≠ '\x00' := by
        rcases List.mem_append.1 hc with hc | hc
        · rcases List.mem_append.1 hc with hc | hc
          · intro h0; rw [h0] at hc; revert hc; decide
          · intro h0; rw [h0] at hc
            exact not_mem_searchLine _ ns (by decide) (by decide) (by decide) hc
        · intro h0; rw [h0] at hc; revert hc; decide
      simpa using hne
    simp only [searchMessages, hsock, Bool.not_true, Bool.false_eq_true, if_false]
    rw [List.takeWhile_append_of_pos hnul]
    have e : "* SEARCH".toList ++ searchLine ns ++ "\r\n".toList
          ++ List.takeWhile (fun x : Char => x != '\x00') more
        = "* SEARCH".toList ++ (searchLine ns ++ '\r' :: '\n'
          :: List.takeWhile (fun x : Char => x != '\x00') more) := by
      simp
    rw [e]
    exact parseSearchResponse_searchLine ns hns _
  refine ⟨key, ?_, ?_⟩
  · intro more hsock
    exact key [] more (by simp) (by simpa [searchLine] using hsock)
  · intro response hsock hnone
    simp only [searchMessages, hsock, Bool.not_true, Bool.false_eq_true, if_false]
    unfold parseSearchResponse
    rw [find_none_of_initial _ response _ (List.takeWhile_prefix _) hnone]

/-- C18 at a response with three identifiers and two further lines, one of
which holds a number. -/
theorem searchMessages_identifier_list_witness :
    searchMessages true (sockOf ["* SEARCH 4 9 12\r\n* 7 EXISTS\r\na003 OK done\r\n".toList])
      = [4, 9, 12] :=
  (searchMessages_identifier_list
      (sockOf ["* SEARCH 4 9 12\r\n* 7 EXISTS\r\na003 OK done\r\n".toList])).1
    [4, 9, 12] "* 7 EXISTS\r\na003 OK done\r\n".toList (by decide) (by decide)

/-- C19 evaluated where it fails.  On the header block `Subject: s`,
`From: f`, `Reply-To: r` the output is `From: f`, `To: r`, `Subject: s`: the
pattern for `To` is not tied to the start of a line and finds `To: r` inside
`Reply-To: r`.  On a block holding only the requested fields `From: f` and
`Subject: To: do`, the output gains a line `To: do` taken from the subject. -/
theorem formatToRFC5322_header_from_other_field :
    formatToRFC5322
      "* 1 FETCH (UID 5 BODY[HEADER.FIELDS (DATE FROM TO SUBJECT MESSAGE-ID)] {42}\r\nSubject: s\r\nFrom: f\r\nReply-To: r\r\n\r\n)\r\na004 OK Fetch completed\r\n".toList
      true = "From: f\r\nTo: r\r\nSubject: s\r\n".toList ∧
    formatToRFC5322
      "* 1 FETCH (UID 5 BODY[HEADER.FIELDS (DATE FROM TO SUBJECT MESSAGE-ID)] {34}\r\nFrom: f\r\nSubject: To: do\r\n\r\n)\r\na004 OK Fetch completed\r\n".toList
      true = "From: f\r\nTo: do\r\nSubject: To: do\r\n".toList := by
  decide

/-- C20 evaluated where it fails: for the body `Hi`, `Looks OK to me`, `bye`
(three lines), framed by a status line, `)` and the completion line, the
result is `Hi`, `bye`: the pattern that removes the completion line is applied
to every line of the text, and the body line `Looks OK to me` has its shape.
A body that ends in `)` and has no such line comes back unchanged. -/
theorem formatToRFC5322_drops_body_line :
    formatToRFC5322
      ("* 1 FETCH (UID 5 BODY[1] {27}".toList ++ "\r\n".toList ++
        "Hi\r\nLooks OK to me\r\nbye".toList ++ ")".toList ++ "\r\n".toList ++
        "a005 OK Fetch completed".toList ++ "\r\n".toList) false
      = "Hi\r\nbye".toList ∧
    formatToRFC5322
      ("* 1 FETCH (UID 5 BODY[1] {10}".toList ++ "\r\n".toList ++
        "Hi\r\nf(x)".toList ++ ")".toList ++ "\r\n".toList ++
        "a005 OK Fetch completed".toList ++ "\r\n".toList) false
      = "Hi\r\nf(x)".toList := by
  decide

/-! ## Sublists of the server list -/

theorem checkValidityLoop_sublist (cur : Int) (S : List Int) (h : Bool) (lines : List Str)
    (sv : Int) (su r : List Int) (hr : checkValidityLoop cur S h lines sv su = some r) :
    r.Sublist S := by
  induction lines generalizing sv su with
  | nil =>
    rw [checkValidityLoop] at hr
    split at hr
    · simp only [Option.some.injEq] at hr
      rw [← hr]
      exact List.filter_sublist S
    · simp only [Option.some.injEq] at hr
      rw [← hr]
  | cons line rest ih =>
    rw [checkValidityLoop] at hr
    split at hr
    · simp at hr
    · simp only [Option.some.injEq] at hr
      rw [← hr]
    · split at hr
      · split at hr
        · simp at hr
        · split at hr
          · simp at hr
          · split at hr
            · simp at hr
            · exact ih _ _ hr
      · split at hr
        · split at hr
          · simp at hr
          · split at hr
            · simp at hr
            · exact ih _ _ hr
        · exact ih _ _ hr

theorem checkValidity_returns_sublist (stateFile : Option Str) (indeterminate cur : Int)
    (S : List Int) (h : Bool) (r : List Int)
    (hr : checkValidity stateFile indeterminate cur S h = some r) : r.Sublist S := by
  unfold checkValidity at hr
  split at hr
  · simp only [Option.some.injEq] at hr
    rw [← hr]
  · exact checkValidityLoop_sublist _ _ _ _ _ _ _ hr

theorem fetchLoop_sublist (fetchSuccess : Nat → Bool) (k : Nat) (uids : List Int) :
    (fetchLoop fetchSuccess k uids).Sublist uids := by
  induction uids generalizing k with
  | nil => exact List.Sublist.slnil
  | cons u us ih =>
    rw [fetchLoop]
    split
    · exact (ih (k + 1)).cons u
    · exact (ih (k + 1)).cons₂ u

theorem mainRun_sync (setOrder : List Int → List Int) (fetchSuccess : Nat → Bool)
    (stateFile : Option Str) (indeterminate uidvalidity : Int) (serverUIDs : List Int)
    (headersOnly : Bool) :
    (mainRun setOrder fetchSuccess stateFile indeterminate uidvalidity serverUIDs headersOnly).map
        RunReport.sync
      = mainSync setOrder stateFile indeterminate uidvalidity serverUIDs headersOnly := by
  unfold mainRun mainSync
  split
  · rfl
  · split
    · rfl
    · split <;> simp_all

/-! ## Claims on the exits of `main`, the fetch list and the two search parsers -/

/-- C21 as stated fails: after a failed authentication, after a failed
mailbox selection (`-1`), after an exception in `selectMailbox`, and after an
exception in the synchronisation part, `main` closes the connection and
returns `-1` without a LOGOUT command having been written. -/
theorem mainAfterConnect_error_paths_skip_logout :
    mainAfterConnect 2 false (some 7) true
      = { code := -1, actions := [Action.closeConnection] } ∧
    mainAfterConnect 3 true (some (-1)) true
      = { code := -1, actions := [Action.closeConnection] } ∧
    mainAfterConnect 3 true none true
      = { code := -1, actions := [Action.closeConnection] } ∧
    mainAfterConnect 4 true (some 7) false
      = { code := -1, actions := [Action.closeConnection] } := by
  decide

/-- C21 as amended: in every run that has established a connection the
connection is closed before `main` returns.  A LOGOUT command is written,
and written before the connection is closed, exactly on the path that reaches
line 145: authentication succeeded, a mailbox was selected and no exception
was thrown.  On every other path (authentication failure, select failure, an
exception) the connection is closed without a LOGOUT and `main` returns
`-1`. -/
theorem mainAfterConnect_logout (commandCounter : Int) (authenticated : Bool)
    (selected : Option Int) (synced : Bool) :
    ((authenticated = true ∧ (∃ v, selected = some v ∧ v ≠ -1) ∧ synced = true) →
      mainAfterConnect commandCounter authenticated selected synced
        = { code := 0,
            actions := [Action.logoutCommand (logoutCommand commandCounter),
                        Action.closeConnection] }) ∧
    (¬ (authenticated = true ∧ (∃ v, selected = some v ∧ v ≠ -1) ∧ synced = true) →
      mainAfterConnect commandCounter authenticated selected synced
        = { code := -1, actions := [Action.closeConnection] }) := by
  constructor
  · rintro ⟨ha, ⟨v, hv, hne⟩, hs⟩
    subst ha hv hs
    have : (v == -1) = false := by simpa using hne
    simp [mainAfterConnect, this]
  · intro hnot
    unfold mainAfterConnect
    cases authenticated with
    | false => rfl
    | true =>
      cases selected with
      | none => rfl
      | some v =>
        by_cases hv : v = -1
        · subst hv; rfl
        · have hb : (v == -1) = false := by simpa using hv
          cases synced with
          | false => simp [hb]
          | true => exact absurd ⟨rfl, ⟨v, rfl, hv⟩, rfl⟩ hnot

/-- C22 (the fetch list is a sublist of the server list): whatever the state
file holds (absent, or any content), for every current epoch, mode flag and
server list `S`, a list returned by `checkValidity` is obtained from `S` by
deleting elements, order and multiplicity kept, so it holds no identifier the
server did not report.  The function does return a list when the file is
absent and when it holds a record written by the client. -/
theorem checkValidity_sublist (stateFile : Option Str) (indeterminate cur : Int)
    (S : List Int) (h : Bool) :
    (∀ r, checkValidity stateFile indeterminate cur S h = some r →
      r.Sublist S ∧ ∀ u ∈ r, u ∈ S) ∧
    (stateFile = none → checkValidity stateFile indeterminate cur S h = some S) ∧
    (∀ (e : Int) (P : List Int) (h0 : Bool), inIntRange e → (∀ u ∈ P, inIntRange u) →
      stateFile = some (updateStateFile e P h0) →
      ∃ r, checkValidity stateFile indeterminate cur S h = some r) := by
  refine ⟨?_, ?_, ?_⟩
  · intro r hr
    have hsub := checkValidity_returns_sublist stateFile indeterminate cur S h r hr
    exact ⟨hsub, fun u hu => hsub.subset hu⟩
  · intro hnone
    rw [hnone]
    rfl
  · intro e P h0 he hP hfile
    rw [hfile, checkValidity_written e P h0 he hP]
    split
    · split
      · exact ⟨_, rfl⟩
      · exact ⟨_, rfl⟩
    · exact ⟨_, rfl⟩

/-- C23 evaluated where it fails.  On the response `* SEARCH 4 9`, line
end, `a003 OK SEARCH completed, NO errors`, line end, the plain
`searchMessages` extracts `[4, 9]` and `searchMessagesBIO` extracts the empty
list: its test of line 202 finds the letters `NO` in the text of an OK reply.
The same happens when an untagged `* NO [ALERT]` warning precedes the result
of a successful search. -/
theorem searchMessages_parsers_differ :
    (searchMessages true
        (sockOf ["* SEARCH 4 9\r\na003 OK SEARCH completed, NO errors\r\n".toList]) = [4, 9] ∧
     searchMessagesBIO true
        (true, "* SEARCH 4 9\r\na003 OK SEARCH completed, NO errors\r\n".toList) = []) ∧
    (searchMessages true
        (sockOf ["* NO [ALERT] quota\r\n* SEARCH 4 9\r\na003 OK done\r\n".toList]) = [4, 9] ∧
     searchMessagesBIO true
        (true, "* NO [ALERT] quota\r\n* SEARCH 4 9\r\na003 OK done\r\n".toList) = []) := by
  decide

/-- The two search parsers extract the same list from a response text without
NUL bytes in which the letters `NO` do not occur. -/
theorem searchMessages_parsers_agree (response : Str) (sock : Nat → Option Str)
    (hsock : sock 0 = some response) (hnul : ∀ c ∈ response, c ≠ '\x00')
    (hno : find "NO".toList response = none) :
    searchMessages true sock = searchMessagesBIO true (true, response) := by
  simp only [searchMessages, searchMessagesBIO, hsock, hno, takeWhile_no_nul response hnul,
    Bool.not_true, Bool.false_eq_true, if_false, Option.isSome_none]

/-- C25 (failed fetches are recorded as downloaded): in a run with a
non-empty server list `S` that `checkValidity` does not leave through an
exception, the state file at the end is the record of `S`, whatever the
fetches returned; the identifiers reported as failed are among `S`; and in
the next run at the same epoch and mode no identifier of `S`, hence none whose
fetch failed, is in the fetch list.  A first run (no state file) is such a
run, and its failed identifiers are those of `S` whose fetch returned
`false`; a run on a state file written by the client is such a run too. -/
theorem mainRun_records_failed_fetches (setOrder : List Int → List Int)
    (fetchSuccess : Nat → Bool) (stateFile : Option Str) (indeterminate e : Int)
    (S : List Int) (h : Bool) (hS : S ≠ []) (he : inIntRange e) (hr : ∀ u ∈ S, inIntRange u) :
    (∀ report, mainRun setOrder fetchSuccess stateFile indeterminate e S h = some report →
      report.sync.atEnd = some (updateStateFile e S h) ∧
      (∀ u ∈ report.failed, u ∈ S) ∧
      ∀ (fetch2 : Nat → Bool) (S2 : List Int) (report2 : RunReport),
        mainRun setOrder fetch2 report.sync.atEnd indeterminate e S2 h = some report2 →
        ∀ u ∈ S, u ∉ report2.sync.uidsToDownload) ∧
    (stateFile = none →
      mainRun setOrder fetchSuccess stateFile indeterminate e S h
        = some { sync := { uidsToDownload := S,
                           afterCreateDir := some (createDir setOrder none e S h),
                           atEnd := some (updateStateFile e S h) },
                 failed := fetchLoop fetchSuccess 0 S }) ∧
    (∀ (e0 : Int) (P : List Int) (h0 : Bool), inIntRange e0 → (∀ u ∈ P, inIntRange u) →
      stateFile = some (updateStateFile e0 P h0) →
      ∃ report, mainRun setOrder fetchSuccess stateFile indeterminate e S h = some report) := by
  have hemp : S.isEmpty = false := by
    cases S with
    | nil => exact absurd rfl hS
    | cons _ _ => rfl
  refine ⟨?_, ?_, ?_⟩
  rotate_left 2
  · intro e0 P h0 he0 hP hfile
    have hret : ∃ r, checkValidity stateFile indeterminate e S h = some r := by
      rw [hfile, checkValidity_written e0 P h0 he0 hP]
      split
      · split
        · exact ⟨_, rfl⟩
        · exact ⟨_, rfl⟩
      · exact ⟨_, rfl⟩
    obtain ⟨r, hr2⟩ := hret
    simp only [mainRun, hemp, Bool.false_eq_true, if_false, hr2]
    split
    · exact ⟨_, rfl⟩
    · exact ⟨_, rfl⟩
  · intro report hrep
    have hsync := mainRun_sync setOrder fetchSuccess stateFile indeterminate e S h
    rw [hrep] at hsync
    have hend : report.sync.atEnd = some (updateStateFile e S h) := by
      simp only [Option.map_some', mainSync, hemp, Bool.false_eq_true, if_false] at hsync
      split at hsync
      · simp at hsync
      · simp only [Option.some.injEq] at hsync
        rw [hsync]
    have hfailed : ∀ u ∈ report.failed, u ∈ S := by
      intro u hu
      simp only [mainRun, hemp, Bool.false_eq_true, if_false] at hrep
      split at hrep
      · simp at hrep
      · rename_i uids hcv
        have hsub := checkValidity_returns_sublist _ _ _ _ _ _ hcv
        split at hrep
        · simp only [Option.some.injEq] at hrep
          rw [← hrep] at hu
          simp at hu
        · simp only [Option.some.injEq] at hrep
          rw [← hrep] at hu
          exact hsub.subset ((fetchLoop_sublist fetchSuccess 0 uids).subset hu)
    refine ⟨hend, hfailed, ?_⟩
    intro fetch2 S2 report2 hrep2 u hu hmem
    rw [hend] at hrep2
    have hsync2 := mainRun_sync setOrder fetch2 (some (updateStateFile e S h)) indeterminate e S2 h
    rw [hrep2] at hsync2
    simp only [Option.map_some', mainSync] at hsync2
    split at hsync2
    · simp only [Option.some.injEq] at hsync2
      rw [hsync2] at hmem
      simp at hmem
    · rw [checkValidity_written e S h he hr] at hsync2
      simp only [if_true, Option.some.injEq] at hsync2
      rw [hsync2] at hmem
      simp only [List.mem_filter] at hmem
      have := hmem.2
      simp [hu] at this
  · intro hnone
    subst hnone
    simp only [mainRun, hemp, Bool.false_eq_true, if_false, checkValidity]

/-- C25 on a first run with server list `[4, 9]` in which every fetch fails:
both identifiers are reported as failed and both are recorded. -/
theorem mainRun_records_failed_fetches_witness :
    mainRun id (fun _ => false) none 0 7 [4, 9] true
      = some { sync := { uidsToDownload := [4, 9],
                         afterCreateDir := some (createDir id none 7 [4, 9] true),
                         atEnd := some (updateStateFile 7 [4, 9] true) },
               failed := [4, 9] } :=
  ((mainRun_records_failed_fetches id (fun _ => false) none 0 7 [4, 9] true (by decide)
    (by decide) (by decide)).2.1 rfl).trans (by decide)

/-! ## A reply of one line -/

theorem matchStatusAt_of_head (c : Char) (cs : Str) (hc : c ≠ '\r') :
    matchStatusAt (c :: cs) = false := by
  have : ("\r\n".toList).isPrefixOf (c :: cs) = false := by
    have hne : ¬ '\r' = c := fun h => hc h.symm
    simp [List.isPrefixOf, hne]
  unfold matchStatusAt stripPrefix
  rw [this]
  rfl

theorem regexSearchStatus_single_line (line : Str) (hline : ∀ c ∈ line, c ≠ '\r' ∧ c ≠ '\n') :
    regexSearchStatus (line ++ "\r\n".toList) = false := by
  induction line with
  | nil => decide
  | cons c cs ih =>
    have hc := (hline c (List.mem_cons_self _ _)).1
    show regexSearchStatus (c :: (cs ++ "\r\n".toList)) = false
    rw [regexSearchStatus, matchStatusAt_of_head c _ hc,
      ih (fun x hx => hline x (List.mem_cons_of_mem _ hx))]
    rfl

theorem loop_reads_on (fuel : Nat) (bio : BioStream) (acc : Str) (hb : (bio 0).bytes ≠ [])
    (hs : regexSearchStatus (acc ++ (bio 0).bytes.takeWhile (· != '\x00')) = false) :
    readIMAPSResponseLoop (fuel + 1) bio acc
      = readIMAPSResponseLoop fuel (fun n => bio (n + 1))
          (acc ++ (bio 0).bytes.takeWhile (· != '\x00')) := by
  have hne : (bio 0).bytes.isEmpty = false := by
    cases hbb : (bio 0).bytes with
    | nil => exact absurd hbb hb
    | cons _ _ => rfl
  rw [readIMAPSResponseLoop]
  simp only [hne, Bool.false_eq_true, if_false, hs]

theorem isalnum_isLineChar (c : Char) (h : isalnum c = true) : c ≠ '\r' ∧ c ≠ '\n' := by
  constructor
  · intro hc; rw [hc] at h; exact absurd h (by decide)
  · intro hc; rw [hc] at h; exact absurd h (by decide)

/-! ## Claims on the completion test and on failed fetches -/

/-- C24 (completion needs a status line preceded by CRLF): when the text
accumulated after a read has no CRLF immediately followed by alphanumerics,
one white-space character, `OK`, `NO` or `BAD`, one white-space character, the
rest of the line and CRLF, the loop of `readIMAPSResponse` does not stop and
performs another read; it returns `true` only with a response that has such a
line.  In particular a reply of one line, such as a tag followed by
` NO Mailbox not found` and CRLF, has no such line: when it is all the server
sends, the loop reads again after it, and `readIMAPSResponse` never hands it
to `selectMailboxBIO` as a complete response. -/
theorem readIMAPSResponse_needs_preceding_crlf :
    (∀ (fuel : Nat) (bio : BioStream) (acc : Str), (bio 0).bytes ≠ [] →
      ¬ HasStatusLine (acc ++ (bio 0).bytes.takeWhile (· != '\x00')) →
      readIMAPSResponseLoop (fuel + 1) bio acc
        = readIMAPSResponseLoop fuel (fun n => bio (n + 1))
            (acc ++ (bio 0).bytes.takeWhile (· != '\x00'))) ∧
    (∀ (fuel : Nat) (bio : BioStream) (r : Str),
      readIMAPSResponse fuel bio = some (true, r) → HasStatusLine r) ∧
    (∀ line : Str, (∀ c ∈ line, c ≠ '\r' ∧ c ≠ '\n') →
      ¬ HasStatusLine (line ++ "\r\n".toList) ∧
      ∀ (fuel : Nat) (bio : BioStream),
        readIMAPSResponse fuel bio ≠ some (true, line ++ "\r\n".toList)) ∧
    (∀ tag : Str, (∀ c ∈ tag, isalnum c = true) →
      (∀ (fuel : Nat) (bio : BioStream),
        readIMAPSResponse fuel bio ≠ some (true, tag ++ " NO Mailbox not found\r\n".toList)) ∧
      ∀ (fuel : Nat) (after : BioStream),
        readIMAPSResponse (fuel + 1)
            (deliver [tag ++ " NO Mailbox not found\r\n".toList] after)
          = readIMAPSResponseLoop fuel after (tag ++ " NO Mailbox not found\r\n".toList)) := by
  have hline : ∀ line : Str, (∀ c ∈ line, c ≠ '\r' ∧ c ≠ '\n') →
      ¬ HasStatusLine (line ++ "\r\n".toList) ∧
      ∀ (fuel : Nat) (bio : BioStream),
        readIMAPSResponse fuel bio ≠ some (true, line ++ "\r\n".toList) := by
    intro line hl
    have hfalse := regexSearchStatus_single_line line hl
    refine ⟨fun hhas => ?_, fun fuel bio hret => ?_⟩
    · rw [(regexSearchStatus_iff _).2 hhas] at hfalse
      exact Bool.noConfusion hfalse
    · rw [loop_true_matches fuel bio [] _ hret] at hfalse
      exact Bool.noConfusion hfalse
  refine ⟨?_, ?_, hline, ?_⟩
  · intro fuel bio acc hb hno
    apply loop_reads_on fuel bio acc hb
    cases hs : regexSearchStatus (acc ++ (bio 0).bytes.takeWhile (· != '\x00')) with
    | false => rfl
    | true => exact absurd ((regexSearchStatus_iff _).1 hs) hno
  · intro fuel bio r hret
    exact (regexSearchStatus_iff r).1 (loop_true_matches fuel bio [] r hret)
  · intro tag htag
    have hchars : ∀ c ∈ tag ++ " NO Mailbox not found".toList, c ≠ '\r' ∧ c ≠ '\n' := by
      intro c hc
      rcases List.mem_append.1 hc with hc | hc
      · exact isalnum_isLineChar c (htag c hc)
      · constructor
        · intro h0; rw [h0] at hc; revert hc; decide
        · intro h0; rw [h0] at hc; revert hc; decide
    have heq : tag ++ " NO Mailbox not found\r\n".toList
        = (tag ++ " NO Mailbox not found".toList) ++ "\r\n".toList := by
      simp
    have hnul : ∀ c ∈ tag ++ " NO Mailbox not found\r\n".toList, c ≠ '\x00' := by
      intro c hc
      rcases List.mem_append.1 hc with hc | hc
      · intro h0; rw [h0] at hc; exact absurd (htag _ hc) (by decide)
      · intro h0; rw [h0] at hc; revert hc; decide
    constructor
    · rw [heq]
      exact (hline _ hchars).2
    · intro fuel after
      have hb : (deliver [tag ++ " NO Mailbox not found\r\n".toList] after 0).bytes ≠ [] := by
        show tag ++ " NO Mailbox not found\r\n".toList ≠ []
        simp
      have h0 : (deliver [tag ++ " NO Mailbox not found\r\n".toList] after 0).bytes
          = tag ++ " NO Mailbox not found\r\n".toList := rfl
      have hs : regexSearchStatus ([] ++
          (deliver [tag ++ " NO Mailbox not found\r\n".toList] after 0).bytes.takeWhile
            (· != '\x00')) = false := by
        rw [h0, takeWhile_no_nul _ hnul, List.nil_append, heq]
        exact regexSearchStatus_single_line _ hchars
      rw [readIMAPSResponse, loop_reads_on fuel _ [] hb hs, h0, takeWhile_no_nul _ hnul]
      rfl

/-! ## Occurrences of a text through `formatToRFC5322` -/

theorem removeFirstLine_final (s : Str) : removeFirstLine s <:+ s := by
  unfold removeFirstLine
  have hd := List.dropWhile_suffix (l := s) isLineChar
  split
  · rename_i t heq
    rw [heq] at hd
    exact ((List.suffix_cons '\n' t).trans (List.suffix_cons '\r' _)).trans hd
  · rename_i t heq
    rw [heq] at hd
    exact (List.suffix_cons '\n' t).trans hd
  · exact List.suffix_refl s

theorem head_dropWhile_fails (p : Char → Bool) (l : Str) :
    ∀ c ∈ (l.dropWhile p).head?, p c = false := by
  induction l with
  | nil => simp
  | cons x xs ih =>
    rw [List.dropWhile_cons]
    split
    · exact ih
    · rename_i hx
      intro c hc
      simp only [List.head?_cons, Option.mem_def, Option.some.injEq] at hc
      rw [← hc]
      simpa using hx

theorem matchOkLineAt_some (s rest : Str) (h : matchOkLineAt s = some rest) :
    rest <:+ s ∧ ∀ c ∈ rest.head?, isLineChar c = false := by
  unfold matchOkLineAt at h
  dsimp only at h
  split at h
  · simp at h
  · rename_i s1 hbreak
    have hs1 : s1 <:+ s := by
      split at hbreak
      · rename_i t
        simp only [Option.some.injEq] at hbreak
        rw [← hbreak]
        exact (List.suffix_cons '\n' t).trans (List.suffix_cons '\r' _)
      · rename_i t
        simp only [Option.some.injEq] at hbreak
        rw [← hbreak]
        exact List.suffix_cons '\n' t
      · simp at hbreak
    split at h
    · simp at h
    · split at h
      · rename_i c1 c2 s2 hdrop
        split at h
        · simp only [Option.some.injEq] at h
          rw [← h]
          refine ⟨?_, head_dropWhile_fails isLineChar s2⟩
          have h1 : s2.dropWhile isLineChar <:+ s2 := List.dropWhile_suffix _
          have h2 : s2 <:+ c1 :: 'O' :: 'K' :: c2 :: s2 :=
            ((List.suffix_cons c2 s2).trans (List.suffix_cons 'K' _)).trans
              ((List.suffix_cons 'O' _).trans (List.suffix_cons c1 _))
          have h3 : c1 :: 'O' :: 'K' :: c2 :: s2 <:+ s1 := by
            rw [← hdrop]; exact List.dropWhile_suffix _
          exact ((h1.trans h2).trans h3).trans hs1
        · simp at h
      · simp at h

theorem removeOkLinesAux_succ (fuel : Nat) (s : Str) :
    removeOkLinesAux (fuel + 1) s
      = match matchOkLineAt s with
        | some rest => removeOkLinesAux fuel rest
        | none =>
          match s with
          | [] => []
          | c :: cs => c :: removeOkLinesAux fuel cs := by
  cases s <;> rfl

theorem removeOkLinesAux_head (fuel : Nat) (t : Str)
    (ht : ∀ c ∈ t.head?, isLineChar c = false) :
    ∀ c ∈ (removeOkLinesAux fuel t).head?, isLineChar c = false := by
  induction fuel generalizing t with
  | zero => exact ht
  | succ f ih =>
    rw [removeOkLinesAux_succ]
    split
    · rename_i rest hm
      exact ih rest (matchOkLineAt_some t rest hm).2
    · split
      · simp
      · rename_i c cs
        intro x hx
        simp only [List.head?_cons, Option.mem_def, Option.some.injEq] at hx
        exact ht x (by simp [hx])

theorem removeOkLinesAux_initial (fuel : Nat) (t q : Str)
    (hq : ∀ c ∈ q, isLineChar c = true) (h : q <+: removeOkLinesAux fuel t) : q <+: t := by
  induction fuel generalizing t q with
  | zero => exact h
  | succ f ih =>
    cases q with
    | nil => exact List.nil_prefix
    | cons a q1 =>
      have ha : isLineChar a = true := hq a (List.mem_cons_self _ _)
      rw [removeOkLinesAux_succ] at h
      split at h
      · rename_i rest hm
        have hhead := removeOkLinesAux_head f rest (matchOkLineAt_some t rest hm).2
        obtain ⟨u, hu⟩ := h
        rw [← hu] at hhead
        have := hhead a (by simp)
        rw [ha] at this
        exact Bool.noConfusion this
      · split at h
        · simp at h
        · rename_i c cs _
          rw [List.cons_prefix_cons] at h ⊢
          exact ⟨h.1, ih cs q1 (fun x hx => hq x (List.mem_cons_of_mem _ hx)) h.2⟩

theorem removeOkLinesAux_occurs (fuel : Nat) (t pat : Str)
    (hpat : ∀ c ∈ pat, isLineChar c = true) (h : pat <:+: removeOkLinesAux fuel t) :
    pat <:+: t := by
  induction fuel generalizing t with
  | zero => exact h
  | succ f ih =>
    rw [removeOkLinesAux_succ] at h
    split at h
    · rename_i rest hm
      exact (ih rest h).trans (matchOkLineAt_some t rest hm).1.isInfix
    · split at h
      · exact h
      · rename_i c cs hnone
        rcases List.infix_cons_iff.1 h with hp | hi
        · have heq : removeOkLinesAux (f + 1) (c :: cs) = c :: removeOkLinesAux f cs := by
            rw [removeOkLinesAux_succ, hnone]
          rw [← heq] at hp
          exact (removeOkLinesAux_initial (f + 1) (c :: cs) pat hpat hp).isInfix
        · exact List.infix_cons (ih cs hi)

theorem removeTrailingParen_initial (s : Str) : removeTrailingParen s <+: s := by
  induction s with
  | nil => exact List.nil_prefix
  | cons c cs ih =>
    rw [removeTrailingParen]
    split
    · exact List.nil_prefix
    · exact List.cons_prefix_cons.2 ⟨rfl, ih⟩

/-- A text free of `\r` and `\n` that occurs in the text `formatToRFC5322`
works on occurs in the response. -/
theorem formatted_occurs (response pat : Str) (hpat : ∀ c ∈ pat, isLineChar c = true)
    (h : pat <:+: removeTrailingParen (removeOkLines (removeFirstLine response))) :
    pat <:+: response := by
  have h1 := h.trans (removeTrailingParen_initial _).isInfix
  have h2 := removeOkLinesAux_occurs _ _ pat hpat h1
  exact h2.trans (removeFirstLine_final response).isInfix

/-! ## The header lines `formatToRFC5322` emits -/

theorem matchHeaderAt_some (name t m : Str) (h : matchHeaderAt name t = some m) :
    m <+: t ∧ (name ++ ": ".toList) <+: t ∧ ∃ body, m = body ++ ['\n'] := by
  unfold matchHeaderAt at h
  split at h
  · simp at h
  · rename_i u hu
    have ht := stripPrefix_some _ t u hu
    have hsplit := List.takeWhile_append_dropWhile isLineChar u
    split at h
    · simp at h
    · split at h
      · rename_i rest hdrop
        simp only [Option.some.injEq] at h
        rw [← h]
        refine ⟨⟨rest, ?_⟩, ⟨u, ht.symm⟩,
          ⟨name ++ ": ".toList ++ u.takeWhile isLineChar ++ ['\r'], by simp⟩⟩
        rw [ht]
        conv_rhs => rw [← hsplit, hdrop]
        simp
      · rename_i rest hdrop
        simp only [Option.some.injEq] at h
        rw [← h]
        refine ⟨⟨rest, ?_⟩, ⟨u, ht.symm⟩,
          ⟨name ++ ": ".toList ++ u.takeWhile isLineChar, by simp⟩⟩
        rw [ht]
        conv_rhs => rw [← hsplit, hdrop]
        simp
      · simp at h

theorem searchHeader_cases (name f : Str) :
    searchHeader name f = [] ∨
      (searchHeader name f <:+: f ∧ ∃ body, searchHeader name f = body ++ ['\n']) := by
  induction f with
  | nil => exact Or.inl rfl
  | cons c cs ih =>
    rw [searchHeader]
    cases hm : matchHeaderAt name (c :: cs) with
    | some m =>
      obtain ⟨h1, _, h3⟩ := matchHeaderAt_some name _ m hm
      exact Or.inr ⟨h1.isInfix, h3⟩
    | none =>
      rcases ih with h | ⟨h1, h2⟩
      · exact Or.inl h
      · exact Or.inr ⟨List.infix_cons h1, h2⟩

theorem searchHeader_absent (name f : Str) (h : ¬ (name ++ ": ".toList) <:+: f) :
    searchHeader name f = [] := by
  induction f with
  | nil => rfl
  | cons c cs ih =>
    rw [searchHeader]
    cases hm : matchHeaderAt name (c :: cs) with
    | some m => exact absurd (matchHeaderAt_some name _ m hm).2.1.isInfix h
    | none => exact ih (fun hin => h (List.infix_cons hin))

theorem cleanPiece_searchHeader (pat name f : Str) (hne : pat ≠ []) (hf : ¬ pat <:+: f) :
    CleanPiece pat (searchHeader name f) := by
  rcases searchHeader_cases name f with h | ⟨h1, h2⟩
  · rw [h]
    exact ⟨fun hin => hne (List.infix_nil.1 hin), Or.inl rfl⟩
  · exact ⟨fun hin => hf (hin.trans h1), Or.inr h2⟩

theorem cleanPiece_append (pat a b : Str) (hnl : '\n' ∉ pat)
    (ha : CleanPiece pat a) (hb : CleanPiece pat b) : CleanPiece pat (a ++ b) := by
  obtain ⟨ha1, ha2⟩ := ha
  obtain ⟨hb1, hb2⟩ := hb
  constructor
  · induction a with
    | nil => simpa using hb1
    | cons x xs ih =>
      have hxs1 : ¬ pat <:+: xs := fun hin => ha1 (List.infix_cons hin)
      have hxs2 : xs = [] ∨ ∃ body, xs = body ++ ['\n'] := by
        rcases ha2 with h | ⟨body, h⟩
        · exact absurd h (List.cons_ne_nil _ _)
        · cases body with
          | nil =>
            simp only [List.nil_append, List.cons.injEq] at h
            exact Or.inl h.2
          | cons y ys =>
            simp only [List.cons_append, List.cons.injEq] at h
            exact Or.inr ⟨ys, h.2⟩
      intro hin
      rcases List.infix_cons_iff.1 hin with hp | hi
      · have hpa : x :: xs <+: x :: (xs ++ b) := List.prefix_append (x :: xs) b
        rcases List.prefix_or_prefix_of_prefix hp hpa with h | h
        · exact ha1 h.isInfix
        · rcases ha2 with h0 | ⟨body, h0⟩
          · exact absurd h0 (List.cons_ne_nil _ _)
          · have hmem : '\n' ∈ x :: xs := by rw [h0]; simp
            exact hnl (h.subset hmem)
      · exact ih hxs1 hxs2 hi
  · rcases hb2 with h | ⟨body, h⟩
    · rw [h, List.append_nil]
      exact ha2
    · exact Or.inr ⟨a ++ body, by rw [h, List.append_assoc]⟩

/-! ## Claims on header names -/

/-- C26 (header names are matched case-sensitively and exactly): when the
response has no occurrence of the text `Message-Id: ` (its message-identifier
field is spelled `Message-ID:`, say), the output of
`formatToRFC5322(response, true)` is made of the `Date`, `From`, `To` and
`Subject` matches alone, and holds no occurrence of `Message-Id: `: no
message-identifier line is emitted. -/
theorem formatToRFC5322_message_id_exact (response : Str)
    (h : find "Message-Id: ".toList response = none) :
    formatToRFC5322 response true
      = searchHeader "Date".toList (removeTrailingParen (removeOkLines (removeFirstLine response)))
        ++ searchHeader "From".toList
            (removeTrailingParen (removeOkLines (removeFirstLine response)))
        ++ searchHeader "To".toList
            (removeTrailingParen (removeOkLines (removeFirstLine response)))
        ++ searchHeader "Subject".toList
            (removeTrailingParen (removeOkLines (removeFirstLine response))) ∧
    find "Message-Id: ".toList (formatToRFC5322 response true) = none := by
  have hpat : ∀ c ∈ "Message-Id: ".toList, isLineChar c = true := by decide
  have hne : "Message-Id: ".toList ≠ [] := by decide
  have hnl : '\n' ∉ "Message-Id: ".toList := by decide
  have hresp : ¬ "Message-Id: ".toList <:+: response := by
    intro hin
    have := (find_isSome_iff_occurs _ _).2 hin
    rw [h] at this
    exact Bool.noConfusion this
  have hF : ¬ "Message-Id: ".toList
      <:+: removeTrailingParen (removeOkLines (removeFirstLine response)) :=
    fun hin => hresp (formatted_occurs response _ hpat hin)
  have h5 : searchHeader "Message-Id".toList
      (removeTrailingParen (removeOkLines (removeFirstLine response))) = [] :=
    searchHeader_absent _ _ hF
  have hout : formatToRFC5322 response true
      = searchHeader "Date".toList (removeTrailingParen (removeOkLines (removeFirstLine response)))
        ++ searchHeader "From".toList
            (removeTrailingParen (removeOkLines (removeFirstLine response)))
        ++ searchHeader "To".toList
            (removeTrailingParen (removeOkLines (removeFirstLine response)))
        ++ searchHeader "Subject".toList
            (removeTrailingParen (removeOkLines (removeFirstLine response))) := by
    simp only [formatToRFC5322, if_true, h5, List.append_nil]
  refine ⟨hout, ?_⟩
  have hclean := cleanPiece_append _ _ _ hnl
    (cleanPiece_append _ _ _ hnl
      (cleanPiece_append _ _ _ hnl
        (cleanPiece_searchHeader _ "Date".toList _ hne hF)
        (cleanPiece_searchHeader _ "From".toList _ hne hF))
      (cleanPiece_searchHeader _ "To".toList _ hne hF))
    (cleanPiece_searchHeader _ "Subject".toList _ hne hF)
  rw [hout]
  cases hfind : find "Message-Id: ".toList _ with
  | none => rfl
  | some i =>
    have hsome := congrArg Option.isSome hfind
    exact absurd ((find_isSome_iff_occurs _ _).1 hsome) hclean.1

/-- C26 at a header block whose message identifier is spelled `Message-ID:`:
the output is `From: f`, `Subject: s` and holds no message-identifier line. -/
theorem formatToRFC5322_message_id_exact_witness :
    formatToRFC5322
      "* 1 FETCH (BODY[HEADER] {42}\r\nFrom: f\r\nMessage-ID: <1@x>\r\nSubject: s\r\n\r\n)\r\na004 OK done\r\n".toList
      true = "From: f\r\nSubject: s\r\n".toList :=
  (formatToRFC5322_message_id_exact
    "* 1 FETCH (BODY[HEADER] {42}\r\nFrom: f\r\nMessage-ID: <1@x>\r\nSubject: s\r\n\r\n)\r\na004 OK done\r\n".toList
    (by decide)).1.trans (by decide)

end ImapClient
